import Mathlib

/-!
# Verification of the receipt-analyzer core

Shallow embedding of the receipt analyzer's text-to-structured-data
extraction pipeline (`backend/parser.py`, function `parse_receipt_text`)
and of its search/sort/aggregation algorithms (`backend/algorithms.py`),
together with theorems settling the specification claims about them.

Strings are handled as `List Char`; Python floats are modelled as `Rat`
(all the numerals the parser handles are finite decimals); `datetime`
values are modelled as a year/month/day structure (the parser always
produces midnight times, and no claim observes time-of-day).
-/

namespace RA

/- The rational-arithmetic primitives are `@[irreducible]` by default,
which would keep `decide` from evaluating the embedded functions on
concrete receipts; re-allow unfolding them within this file. -/
attribute [local semireducible] Rat.add Rat.mul Rat.inv

/-! ## Character utilities (ASCII model of Python's `\s`, `\d`, `\w`, case folding) -/

/-- Python `\s` for the ASCII range: space, tab, newline, carriage return,
form feed, vertical tab.  Also the character set stripped by `str.strip()`. -/
def isPySpace (c : Char) : Bool :=
  c == ' ' || c == '\t' || c == '\n' || c == '\r' || c == Char.ofNat 11 || c == Char.ofNat 12

/-- Regex `\w` for the ASCII range: letters, digits, underscore. -/
def isWordChar (c : Char) : Bool :=
  c.isAlpha || c.isDigit || c == '_'

/-- Currency symbols of the character class `[\$€£₹]` in the amount regexes. -/
def isCurrencySym (c : Char) : Bool :=
  c == '$' || c == '€' || c == '£' || c == '₹'

/-- Decimal/thousands separator class `[.,]` of the numeric regexes. -/
def isSepChar (c : Char) : Bool :=
  c == '.' || c == ','

/-- Length of the maximal digit run at the head of `s`. -/
def digitRun : List Char → Nat
  | [] => 0
  | c :: r => if c.isDigit then digitRun r + 1 else 0

/-- Numeric value of a digit list (most significant first). -/
def digitsToNat : List Char → Nat :=
  List.foldl (fun acc c => acc * 10 + (c.toNat - '0'.toNat)) 0

/-- Case-insensitive prefix test: does `p` (the pattern literal) match the
start of `t`, comparing characters through ASCII `Char.toLower` (the model
of `re.IGNORECASE`)? -/
def ciLeads : List Char → List Char → Bool
  | [], _ => true
  | _ :: _, [] => false
  | p :: ps, t :: ts => p.toLower == t.toLower && ciLeads ps ts

/-- Case-sensitive prefix test (used by the date regexes, which are
searched without `re.IGNORECASE`). -/
def litLeads : List Char → List Char → Bool
  | [], _ => true
  | _ :: _, [] => false
  | p :: ps, t :: ts => p == t && litLeads ps ts

/-- Python `str.strip()` on a `\n`-free line (ASCII whitespace model). -/
def pyStrip (s : List Char) : List Char :=
  ((s.dropWhile isPySpace).reverse.dropWhile isPySpace).reverse

/-- Python `str.split('\n')`. -/
def splitOnNl : List Char → List (List Char)
  | [] => [[]]
  | c :: r =>
    match splitOnNl r with
    | h :: t => if c == '\n' then [] :: h :: t else (c :: h) :: t
    | [] => if c == '\n' then [[], []] else [[c]]

/-- Case-sensitive substring test, the model of Python's `needle in hay`. -/
def containsSub (needle : List Char) : List Char → Bool
  | [] => needle.isEmpty
  | s@(_ :: t) => litLeads needle s || containsSub needle t

/-! ## Python `float()` on the numerals produced by the amount regexes

The captures consist of digits and `.`/`,` separators; after the source's
`raw_amount.replace(',', '.')` they consist of digits and dots.  Python's
`float` accepts at most one dot (`float("1.234.56")` raises `ValueError`),
which is what makes claim C10's behaviour observable. -/

/-- `float(s)` for strings of digits and dots: `some` of the rational value
when `s` is `digits [ '.' digits ]` with at least one digit, else `none`
(modelling `ValueError`). -/
def parseFloatQ (s : List Char) : Option Rat :=
  let intp := s.takeWhile Char.isDigit
  let rest := s.dropWhile Char.isDigit
  match rest with
  | [] => if intp.isEmpty then none else some ((digitsToNat intp : Nat) : Rat)
  | c :: frac =>
    if c == '.' && frac.all Char.isDigit && !(intp.isEmpty && frac.isEmpty) then
      some ((digitsToNat intp : Nat) + ((digitsToNat frac : Nat) : Rat) / ((10 : Rat) ^ frac.length))
    else none

/-! ## The numeric core `\d{1,3}(?:[.,]\d{3})*(?:[.,]\d{1,2})`

Backtracking order of the Python engine: the leading digit group is
longest-first, then the star greedily, then the final group greedily.
Because the enclosing amount patterns continue (if at all) with `\s`,
currency letters or end-of-line — none of which can follow a shorter
candidate, whose next character is necessarily a digit or separator from
the longer candidate — the first capture in this order is the only one
whose continuation can ever succeed, so returning it is faithful. -/

/-- Number of consecutive `[.,]\d{3}` blocks at the head of `s`. -/
def starBlocks : List Char → Nat
  | c :: d1 :: d2 :: d3 :: rest =>
    if isSepChar c && d1.isDigit && d2.isDigit && d3.isDigit then starBlocks rest + 1 else 0
  | _ => 0

/-- Match the numeric core at the head of `s`; returns the captured
numeral and the remaining input. -/
def numCoreAt (s : List Char) : Option (List Char × List Char) :=
  let k := min (digitRun s) 3
  if k == 0 then none
  else
    let lead := s.take k
    let s1 := s.drop k
    let smax := starBlocks s1
    (List.range (smax + 1)).findSome? fun i =>
      let blocks := smax - i
      let mid := s1.take (4 * blocks)
      let s2 := s1.drop (4 * blocks)
      match s2 with
      | c :: rest =>
        if isSepChar c then
          let j := min (digitRun rest) 2
          if j == 0 then none
          else some (lead ++ mid ++ c :: rest.take j, rest.drop j)
        else none
      | [] => none

/-! ## The four amount patterns of `parse_receipt_text` -/

/-- Keyword alternation `(?:TOTAL|AMOUNT|BALANCE|DUE)`, case-insensitive;
returns the rest of the input after the keyword. -/
def amountKwAt (s : List Char) : Option (List Char) :=
  (["TOTAL".toList, "AMOUNT".toList, "BALANCE".toList, "DUE".toList]).findSome? fun kw =>
    if ciLeads kw s then some (s.drop kw.length) else none

/-- Pattern (a): `(?:TOTAL|AMOUNT|BALANCE|DUE)\s*[:]?\s*[\$€£₹]?\s*(num)`,
matched at the head of `s`.  Returns (capture, rest after full match). -/
def matchKeywordAmt (s : List Char) : Option (List Char × List Char) :=
  (amountKwAt s).bind fun s1 =>
    let s2 := s1.dropWhile isPySpace
    let s3 := match s2 with
      | ':' :: r => r
      | _ => s2
    let s4 := s3.dropWhile isPySpace
    let s5 := match s4 with
      | c :: r => if isCurrencySym c then r else s4
      | [] => s4
    let s6 := s5.dropWhile isPySpace
    numCoreAt s6

/-- Pattern (b): `[\$€£₹]\s*(num)` at the head of `s`. -/
def matchSymbolAmt (s : List Char) : Option (List Char × List Char) :=
  match s with
  | c :: r => if isCurrencySym c then numCoreAt (r.dropWhile isPySpace) else none
  | [] => none

/-- Pattern (c): `(num)\s*(?:INR|USD|EUR|GBP)` at the head of `s`
(case-insensitive). -/
def matchCodeAmt (s : List Char) : Option (List Char × List Char) :=
  (numCoreAt s).bind fun (cap, r) =>
    let r1 := r.dropWhile isPySpace
    (["INR".toList, "USD".toList, "EUR".toList, "GBP".toList]).findSome? fun code =>
      if ciLeads code r1 then some (cap, r1.drop code.length) else none

/-- Pattern (d): `(num)\s*$` at the head of `s`, where `$` (no MULTILINE)
matches only the end of the text or just before a final newline; with the
greedy `\s*` this amounts to the rest being all whitespace. -/
def matchEolAmt (s : List Char) : Option (List Char × List Char) :=
  (numCoreAt s).bind fun (cap, r) =>
    if (r.dropWhile isPySpace).isEmpty then some (cap, []) else none

/-- `re.findall` driver: scan left to right, emitting each match's capture
and resuming after the matched text; on failure advance one character.
`fuel` bounds the recursion (callers pass the input length). -/
def scanAllAux (m : List Char → Option (List Char × List Char)) :
    Nat → List Char → List (List Char)
  | 0, _ => []
  | _, [] => []
  | fuel + 1, s@(_ :: t) =>
    match m s with
    | some (cap, rest) => cap :: scanAllAux m fuel rest
    | none => scanAllAux m fuel t

/-- All captures of pattern `m` in `s`, in order (the model of
`re.findall(pattern, text, re.IGNORECASE)` for the amount patterns). -/
def scanAll (m : List Char → Option (List Char × List Char)) (s : List Char) :
    List (List Char) :=
  scanAllAux m s.length s

/-- `raw_amount.replace(',', '.')`. -/
def commaToDot (s : List Char) : List Char :=
  s.map fun c => if c == ',' then '.' else c

/-- One iteration of the amount loop body: collect all matches of one
pattern, take the last, normalize commas, parse; `some v` only when the
parse succeeds with a strictly positive value (the `break` case). -/
def tryAmountPattern (m : List Char → Option (List Char × List Char))
    (text : List Char) : Option Rat :=
  match (scanAll m text).getLast? with
  | none => none
  | some raw =>
    match parseFloatQ (commaToDot raw) with
    | some v => if 0 < v then some v else none
    | none => none

/-- The amount patterns in the source's priority order. -/
def amountMatchers : List (List Char → Option (List Char × List Char)) :=
  [matchKeywordAmt, matchSymbolAmt, matchCodeAmt, matchEolAmt]

/-- Amount resolution of `parse_receipt_text`: first pattern (in priority
order) whose last match parses to a strictly positive number; `0.01`
sentinel otherwise. -/
def extractAmount (text : List Char) : Rat :=
  (amountMatchers.findSome? fun m => tryAmountPattern m text).getD (1 / 100)

/-! ## Vendor resolution of `parse_receipt_text` -/

/-- First vendor pattern of the source: the category/keyword alternation
`supermarket|groceries|store|shop|cafe|restaurant|pharmacy|utility|internet|electricity`. -/
def vendorKws1 : List (List Char) :=
  ["supermarket", "groceries", "store", "shop", "cafe", "restaurant",
   "pharmacy", "utility", "internet", "electricity"].map String.toList

/-- Second vendor pattern: the specific-vendor alternation
`Walmart|Target|Kroger|Amazon|Starbucks|Local Cafe|Best Buy|Vodafone|Reliance Jio|BESCOM`. -/
def vendorKws2 : List (List Char) :=
  ["Walmart", "Target", "Kroger", "Amazon", "Starbucks", "Local Cafe",
   "Best Buy", "Vodafone", "Reliance Jio", "BESCOM"].map String.toList

/-- `re.search` for an alternation of literals under `re.IGNORECASE`:
leftmost position wins, alternatives tried in order at each position;
returns the matched substring of the input (`match.group(0)`). -/
def searchCI (kws : List (List Char)) : List Char → Option (List Char)
  | [] => kws.findSome? fun kw => if ciLeads kw [] then some [] else none
  | s@(_ :: t) =>
    match kws.findSome? (fun kw => if ciLeads kw s then some (s.take kw.length) else none) with
    | some m => some m
    | none => searchCI kws t

/-- The vendor keyword loop: try the two patterns in order, first match's
`group(0)` wins. -/
def keywordVendor (text : List Char) : Option (List Char) :=
  match searchCI vendorKws1 text with
  | some m => some m
  | none => searchCI vendorKws2 text

/-- Full-line test `^\d{1,2} sep \d{1,2} sep \d{2,4}$` (sep the slash-or-dash class) (a bare date line). -/
def isBareDateLine (l : List Char) : Bool :=
  let a := digitRun l
  (a == 1 || a == 2) &&
    match l.drop a with
    | c1 :: r1 =>
      (c1 == '/' || c1 == '-') &&
        (let b := digitRun r1
         (b == 1 || b == 2) &&
           match r1.drop b with
           | c2 :: r2 =>
             (c2 == '/' || c2 == '-') && r2.all Char.isDigit &&
               2 ≤ r2.length && r2.length ≤ 4
           | [] => false)
    | [] => false

/-- Full-line test `^\d+\.\d{2}$` (a bare amount line). -/
def isBareAmountLine (l : List Char) : Bool :=
  let a := digitRun l
  1 ≤ a &&
    match l.drop a with
    | c :: r => c == '.' && r.all Char.isDigit && r.length == 2
    | [] => false

/-- The stripped non-empty lines of the text
(`[line.strip() for line in text.split('\n') if line.strip()]`). -/
def strippedLines (text : List Char) : List (List Char) :=
  ((splitOnNl text).map pyStrip).filter fun l => !l.isEmpty

/-- The line-scan step: first stripped non-empty line that is not a bare
date or bare amount and whose length is strictly between 3 and 30. -/
def lineVendor (text : List Char) : Option (List Char) :=
  (strippedLines text).find? fun l =>
    !(isBareDateLine l || isBareAmountLine l) && 3 < l.length && l.length < 30

/-- Vendor resolution as written in the source: start from the sentinel,
let the keyword loop set the vendor, then run the line scan — which, as
coded, runs unconditionally and overwrites any keyword match. -/
def extractVendor (text : List Char) : List Char :=
  let afterKeywords :=
    match keywordVendor text with
    | some m => pyStrip m
    | none => "Unknown Vendor".toList
  match lineVendor text with
  | some l => l
  | none => afterKeywords

/-! ## Category resolution of `parse_receipt_text` -/

/-- Case-insensitive keyword groups over the lowered text, tested in the
source's fixed order. -/
def extractCategory (text : List Char) : String :=
  let t := text.map Char.toLower
  if containsSub "grocer".toList t || containsSub "supermarket".toList t ||
      containsSub "food".toList t then "Groceries"
  else if containsSub "electric".toList t || containsSub "power".toList t ||
      containsSub "utility".toList t then "Utilities"
  else if containsSub "internet".toList t || containsSub "broadband".toList t ||
      containsSub "telecom".toList t then "Internet/Telecom"
  else if containsSub "restaurant".toList t || containsSub "cafe".toList t ||
      containsSub "dine".toList t then "Dining"
  else if containsSub "pharmacy".toList t || containsSub "medicine".toList t ||
      containsSub "health".toList t then "Health"
  else "Miscellaneous"

/-! ## Date resolution of `parse_receipt_text`

`datetime` values are modelled by their calendar date (the parser only
ever produces midnight timestamps).  `mkDate` models the validation the
`datetime` constructor performs inside `strptime`. -/

/-- Model of a Python `datetime` (date part; times produced by the parser
are always midnight). -/
structure PyDateTime where
  year : Nat
  month : Nat
  day : Nat
deriving DecidableEq, Repr

/-- Gregorian leap-year rule, as used by `datetime`. -/
def isLeapYear (y : Nat) : Bool :=
  y % 4 == 0 && (y % 100 != 0 || y % 400 == 0)

/-- Number of days of month `m` in year `y`. -/
def daysInMonth (y m : Nat) : Nat :=
  if m == 2 then (if isLeapYear y then 29 else 28)
  else if m == 4 || m == 6 || m == 9 || m == 11 then 30
  else 31

/-- The `datetime(year, month, day)` constructor: validates the ranges
(`MINYEAR = 1`, `MAXYEAR = 9999`) and the day against the month length,
raising `ValueError` (here: `none`) otherwise. -/
def mkDate (y m d : Nat) : Option PyDateTime :=
  if 1 ≤ y && y ≤ 9999 && 1 ≤ m && m ≤ 12 && 1 ≤ d && d ≤ daysInMonth y m then
    some ⟨y, m, d⟩
  else none

/-- A calendar-valid instant. -/
def ValidDate (dt : PyDateTime) : Prop :=
  1 ≤ dt.year ∧ dt.year ≤ 9999 ∧ 1 ≤ dt.month ∧ dt.month ≤ 12 ∧
    1 ≤ dt.day ∧ dt.day ≤ daysInMonth dt.year dt.month

instance (dt : PyDateTime) : Decidable (ValidDate dt) := by
  unfold ValidDate; infer_instance

/-- `strptime`'s `%d`/`%m` field (`maxv` 31 resp. 12): one digit `1-9`, or
two digits with value in range; a longer digit run makes the directive
fail against the following literal. -/
def readNum2 (maxv : Nat) (s : List Char) : Option (Nat × List Char) :=
  match digitRun s with
  | 1 => let v := digitsToNat (s.take 1); if 1 ≤ v then some (v, s.drop 1) else none
  | 2 => let v := digitsToNat (s.take 2); if 1 ≤ v && v ≤ maxv then some (v, s.drop 2) else none
  | _ => none

/-- `strptime`'s `%Y` field: exactly four digits are consumed. -/
def readYear4 (s : List Char) : Option (Nat × List Char) :=
  if 4 ≤ digitRun s then some (digitsToNat (s.take 4), s.drop 4) else none

/-- A literal character of a `strptime` format. -/
def litCh (c : Char) (s : List Char) : Option (List Char) :=
  match s with
  | x :: r => if x == c then some r else none
  | [] => none

/-- Whitespace in a `strptime` format, which matches `\s+`. -/
def ws1 (s : List Char) : Option (List Char) :=
  match s with
  | c :: r => if isPySpace c then some (r.dropWhile isPySpace) else none
  | [] => none

/-- English month abbreviations (the `%b` names). -/
def monthAbbrevs : List (List Char) :=
  ["Jan", "Feb", "Mar", "Apr", "May", "Jun",
   "Jul", "Aug", "Sep", "Oct", "Nov", "Dec"].map String.toList

/-- English full month names (the `%B` names). -/
def monthFulls : List (List Char) :=
  ["January", "February", "March", "April", "May", "June", "July",
   "August", "September", "October", "November", "December"].map String.toList

/-- Match one of `names` case-insensitively at the head of `s`, returning
the 1-based month number and the rest. -/
def monthIdxAux (s : List Char) : List (List Char) → Nat → Option (Nat × List Char)
  | [], _ => none
  | n :: ns, i => if ciLeads n s then some (i + 1, s.drop n.length) else monthIdxAux s ns (i + 1)

/-- `%b` / `%B` field reader. -/
def readMonthName (names : List (List Char)) (s : List Char) : Option (Nat × List Char) :=
  monthIdxAux s names 0

/-- `strptime(ds, "%d/%m/%Y")`, field extraction part: (year, month, day). -/
def trpDMYslash (s : List Char) : Option (Nat × Nat × Nat) := do
  let (d, s) ← readNum2 31 s
  let s ← litCh '/' s
  let (m, s) ← readNum2 12 s
  let s ← litCh '/' s
  let (y, s) ← readYear4 s
  if s.isEmpty then pure (y, m, d) else none

/-- `strptime(ds, "%m/%d/%Y")`. -/
def trpMDYslash (s : List Char) : Option (Nat × Nat × Nat) := do
  let (m, s) ← readNum2 12 s
  let s ← litCh '/' s
  let (d, s) ← readNum2 31 s
  let s ← litCh '/' s
  let (y, s) ← readYear4 s
  if s.isEmpty then pure (y, m, d) else none

/-- `strptime(ds, "%Y-%m-%d")`. -/
def trpYMDdash (s : List Char) : Option (Nat × Nat × Nat) := do
  let (y, s) ← readYear4 s
  let s ← litCh '-' s
  let (m, s) ← readNum2 12 s
  let s ← litCh '-' s
  let (d, s) ← readNum2 31 s
  if s.isEmpty then pure (y, m, d) else none

/-- `strptime(ds, "%d-%m-%Y")`. -/
def trpDMYdash (s : List Char) : Option (Nat × Nat × Nat) := do
  let (d, s) ← readNum2 31 s
  let s ← litCh '-' s
  let (m, s) ← readNum2 12 s
  let s ← litCh '-' s
  let (y, s) ← readYear4 s
  if s.isEmpty then pure (y, m, d) else none

/-- `strptime(ds, "%d.%m.%Y")`. -/
def trpDMYdot (s : List Char) : Option (Nat × Nat × Nat) := do
  let (d, s) ← readNum2 31 s
  let s ← litCh '.' s
  let (m, s) ← readNum2 12 s
  let s ← litCh '.' s
  let (y, s) ← readYear4 s
  if s.isEmpty then pure (y, m, d) else none

/-- `strptime(ds, "%m.%d.%Y")`. -/
def trpMDYdot (s : List Char) : Option (Nat × Nat × Nat) := do
  let (m, s) ← readNum2 12 s
  let s ← litCh '.' s
  let (d, s) ← readNum2 31 s
  let s ← litCh '.' s
  let (y, s) ← readYear4 s
  if s.isEmpty then pure (y, m, d) else none

/-- `strptime(ds, "%d %b %Y")`. -/
def trpDMonY (s : List Char) : Option (Nat × Nat × Nat) := do
  let (d, s) ← readNum2 31 s
  let s ← ws1 s
  let (m, s) ← readMonthName monthAbbrevs s
  let s ← ws1 s
  let (y, s) ← readYear4 s
  if s.isEmpty then pure (y, m, d) else none

/-- `strptime(ds, "%d %B %Y")`. -/
def trpDMonthY (s : List Char) : Option (Nat × Nat × Nat) := do
  let (d, s) ← readNum2 31 s
  let s ← ws1 s
  let (m, s) ← readMonthName monthFulls s
  let s ← ws1 s
  let (y, s) ← readYear4 s
  if s.isEmpty then pure (y, m, d) else none

/-- `strptime(ds, "%b %d, %Y")`. -/
def trpMonDY (s : List Char) : Option (Nat × Nat × Nat) := do
  let (m, s) ← readMonthName monthAbbrevs s
  let s ← ws1 s
  let (d, s) ← readNum2 31 s
  let s ← litCh ',' s
  let s ← ws1 s
  let (y, s) ← readYear4 s
  if s.isEmpty then pure (y, m, d) else none

/-- `strptime(ds, "%B %d, %Y")`. -/
def trpMonthDY (s : List Char) : Option (Nat × Nat × Nat) := do
  let (m, s) ← readMonthName monthFulls s
  let s ← ws1 s
  let (d, s) ← readNum2 31 s
  let s ← litCh ',' s
  let s ← ws1 s
  let (y, s) ← readYear4 s
  if s.isEmpty then pure (y, m, d) else none

/-- A full `strptime` call: field extraction followed by the `datetime`
constructor's validation. -/
def mkFmt (p : List Char → Option (Nat × Nat × Nat)) (s : List Char) : Option PyDateTime :=
  (p s).bind fun t => mkDate t.1 t.2.1 t.2.2

/-- The source's fixed ordered list of date formats. -/
def strptimeFormats : List (List Char → Option PyDateTime) :=
  [mkFmt trpDMYslash, mkFmt trpMDYslash, mkFmt trpYMDdash, mkFmt trpDMYdash,
   mkFmt trpDMYdot, mkFmt trpMDYdot, mkFmt trpDMonY, mkFmt trpDMonthY,
   mkFmt trpMonDY, mkFmt trpMonthDY]

/-- The inner format loop: first format that parses the matched substring. -/
def parseDateString (ds : List Char) : Option PyDateTime :=
  strptimeFormats.findSome? fun f => f ds

/-- Separator class dash/slash/dot `[-` `/` `.]` of the first two date patterns. -/
def isDateSep (c : Char) : Bool :=
  c == '-' || c == '/' || c == '.'

/-- Date pattern 1, `\d{1,2} sep \d{1,2} sep \d{2,4} (sep the dash/slash/dot class)`, matched at the head
of `s`; returns the rest after the match. -/
def dp1At (s : List Char) : Option (List Char) :=
  [2, 1].findSome? fun a =>
    if a ≤ digitRun s then
      match s.drop a with
      | c1 :: r1 =>
        if isDateSep c1 then
          [2, 1].findSome? fun b =>
            if b ≤ digitRun r1 then
              match r1.drop b with
              | c2 :: r2 =>
                if isDateSep c2 then
                  let cc := min (digitRun r2) 4
                  if 2 ≤ cc then some (r2.drop cc) else none
                else none
              | [] => none
            else none
        else none
      | [] => none
    else none

/-- Date pattern 2, `\d{4} sep \d{1,2} sep \d{1,2}`, at the head of `s`. -/
def dp2At (s : List Char) : Option (List Char) :=
  if 4 ≤ digitRun s then
    match s.drop 4 with
    | c1 :: r1 =>
      if isDateSep c1 then
        [2, 1].findSome? fun b =>
          if b ≤ digitRun r1 then
            match r1.drop b with
            | c2 :: r2 =>
              if isDateSep c2 then
                let cc := min (digitRun r2) 2
                if 1 ≤ cc then some (r2.drop cc) else none
              else none
            | [] => none
          else none
      else none
    | [] => none
  else none

/-- `\d{2,4}\b` at the head of `s` (end of date patterns 3 and 4): the
greedy digit group backtracks against the word boundary, which can only
succeed when the whole digit run (of length 2 to 4) is taken. -/
def yearTailBound (s : List Char) : Option (List Char) :=
  let c := digitRun s
  if 2 ≤ c && c ≤ 4 then
    match s.drop c with
    | [] => some []
    | x :: r => if isWordChar x then none else some (x :: r)
  else none

/-- The case-sensitive month-abbreviation alternation of date patterns 3
and 4, followed by the greedy `\w*`. -/
def monAbbrevWord (s : List Char) : Option (List Char) :=
  (monthAbbrevs.findSome? fun n => if litLeads n s then some (s.drop n.length) else none).map
    fun r => r.dropWhile isWordChar

/-- Date pattern 3, `\b\d{1,2}\s+(?:Jan|…|Dec)\w*\s+\d{2,4}\b`, at the
head of `s` (the leading `\b` is checked by the scanner). -/
def dp3At (s : List Char) : Option (List Char) :=
  [2, 1].findSome? fun a =>
    if a ≤ digitRun s then do
      let r1 ← ws1 (s.drop a)
      let r2 ← monAbbrevWord r1
      let r3 ← ws1 r2
      yearTailBound r3
    else none

/-- Date pattern 4, `\b(?:Jan|…|Dec)\w*\s+\d{1,2},\s+\d{2,4}\b`, at the
head of `s`. -/
def dp4At (s : List Char) : Option (List Char) := do
  let r1 ← monAbbrevWord s
  let r2 ← ws1 r1
  let r3 ← [2, 1].findSome? fun a =>
    if a ≤ digitRun r2 then
      match r2.drop a with
      | ',' :: r => some r
      | _ => none
    else none
  let r4 ← ws1 r3
  yearTailBound r4

/-- `re.search` scanner for the date patterns: leftmost match, optionally
requiring a word boundary before the match position; returns the matched
substring (`match.group(0)`). -/
def scanDateAux (m : List Char → Option (List Char)) (needB : Bool) :
    Nat → Option Char → List Char → Option (List Char)
  | 0, _, _ => none
  | _, _, [] => none
  | fuel + 1, prev, s@(c :: t) =>
    let boundOk := !needB || (match prev with | none => true | some p => !isWordChar p)
    match (if boundOk then m s else none) with
    | some rest => some (s.take (s.length - rest.length))
    | none => scanDateAux m needB fuel (some c) t

/-- Search `text` for the leftmost match of a date pattern. -/
def scanDate (m : List Char → Option (List Char)) (needB : Bool) (text : List Char) :
    Option (List Char) :=
  scanDateAux m needB text.length none text

/-- The four date-pattern searches, in the source's order. -/
def dateSearchers : List (List Char → Option (List Char)) :=
  [scanDate dp1At false, scanDate dp2At false, scanDate dp3At true, scanDate dp4At true]

/-- Date resolution of `parse_receipt_text`: for each pattern in order,
take the first match in the text and try the formats; the first
pattern-and-format combination that parses wins; `none` when no
combination succeeds anywhere (the current-time fallback case). -/
def extractDate (text : List Char) : Option PyDateTime :=
  dateSearchers.findSome? fun p => (p text).bind parseDateString

/-! ## `parse_receipt_text` itself -/

/-- The structured record candidate produced by `parse_receipt_text`. -/
structure ParsedReceipt where
  vendor : String
  transaction_date : PyDateTime
  amount : Rat
  category : String
  extracted_text : String
deriving DecidableEq, Repr

/-- `parse_receipt_text(text)`: pure function of the text plus the ambient
current time `now` (used only for the date fallback). -/
def parseReceiptText (text : String) (now : PyDateTime) : ParsedReceipt :=
  let t := text.toList
  { vendor := (extractVendor t).asString
    transaction_date := (extractDate t).getD now
    amount := extractAmount t
    category := extractCategory t
    extracted_text := text }

/-! ## The record model for `backend/algorithms.py`

The algorithms operate on receipt dictionaries.  A record is an
association list from field names to Python values; values are numbers
(`int`/`float`, modelled as `Rat`), strings, `datetime`s, or `None`. -/

/-- A Python value stored in a receipt dictionary. -/
inductive Value where
  | num (q : Rat)
  | str (s : String)
  | date (d : PyDateTime)
  | none
deriving DecidableEq, Repr

/-- A receipt dictionary (keys unique by construction in callers). -/
abbrev RRecord := List (String × Value)

/-- `receipt.get(field)`: `Option.none` models an absent key. -/
def dget (r : RRecord) (k : String) : Option Value :=
  (r.find? fun p => p.1 == k).map (·.2)

/-- Zero-padded two-digit decimal rendering. -/
def pad2 (n : Nat) : String :=
  if n < 10 then "0" ++ toString n else toString n

/-- Zero-padded four-digit decimal rendering (`%Y`). -/
def pad4 (n : Nat) : String :=
  if n < 10 then "000" ++ toString n
  else if n < 100 then "00" ++ toString n
  else if n < 1000 then "0" ++ toString n
  else toString n

/-- Python `str(datetime)` (parser-produced datetimes are midnight). -/
def pyStrDate (d : PyDateTime) : String :=
  pad4 d.year ++ "-" ++ pad2 d.month ++ "-" ++ pad2 d.day ++ " 00:00:00"

/-- `str(x)` for the non-numeric values a sort key can see (the numeric
case is handled separately by `sort_receipts`, so its rendering here is
immaterial). -/
def strOfNonNum : Value → String
  | .num _ => ""
  | .str s => s
  | .date d => pyStrDate d
  | .none => "None"

/-! ## `sort_receipts`

The source's key function is
`x.get(key, 0) if isinstance(x.get(key), (int, float)) else str(x.get(key, ''))`:
per record, a numeric value is used as-is, any other value is rendered as
a string, and an absent key becomes `''`.  Python's `sorted` raises
`TypeError` as soon as it compares a number with a string, and a list
whose computed keys include both kinds cannot be sorted without such a
comparison, so the model returns `none` exactly when both kinds occur. -/

/-- A computed sort key: numeric or string. -/
abbrev SKey := Sum Rat String

/-- Key computation of `sort_receipts` for one record. -/
def sortKey (r : RRecord) (k : String) : SKey :=
  match dget r k with
  | some (.num q) => Sum.inl q
  | some v => Sum.inr (strOfNonNum v)
  | Option.none => Sum.inr ""

/-- Comparison on sort keys; the cross-kind cases are arbitrary (they are
exactly the `TypeError` cases, which `sortReceipts` rules out). -/
def skLe : SKey → SKey → Prop
  | .inl a, .inl b => a ≤ b
  | .inl _, .inr _ => True
  | .inr _, .inl _ => False
  | .inr a, .inr b => a ≤ b

instance : DecidableRel skLe := fun a b =>
  match a, b with
  | .inl a, .inl b => inferInstanceAs (Decidable (a ≤ b))
  | .inl _, .inr _ => inferInstanceAs (Decidable True)
  | .inr _, .inl _ => inferInstanceAs (Decidable False)
  | .inr a, .inr b => inferInstanceAs (Decidable (a ≤ b))

/-- Ascending comparison of two records under field `k`. -/
def keyLE (k : String) (a b : RRecord) : Prop :=
  skLe (sortKey a k) (sortKey b k)

/-- Descending comparison (the `reverse=True` ordering). -/
def keyGE (k : String) (a b : RRecord) : Prop :=
  skLe (sortKey b k) (sortKey a k)

instance (k : String) : DecidableRel (keyLE k) := fun a b =>
  inferInstanceAs (Decidable (skLe (sortKey a k) (sortKey b k)))

instance (k : String) : DecidableRel (keyGE k) := fun a b =>
  inferInstanceAs (Decidable (skLe (sortKey b k) (sortKey a k)))

/-- Does the record's computed key come out numeric? -/
def isNumKey (r : RRecord) (k : String) : Bool :=
  match sortKey r k with
  | .inl _ => true
  | .inr _ => false

/-- `sort_receipts(receipts, key, reverse)`: a stable sort on the computed
keys, returning a new list; `none` models the `TypeError` raised on
mixed-kind keys.  `reverse=True` sorts by the reversed comparison while
still keeping equal-key records in input order (CPython's `list.sort`
guarantees stability for `reverse=True` as well). -/
def sortReceipts (rs : List RRecord) (k : String) (rev : Bool) : Option (List RRecord) :=
  if rs.any (fun r => isNumKey r k) && rs.any (fun r => !isNumKey r k) then Option.none
  else some (if rev then rs.insertionSort (keyGE k) else rs.insertionSort (keyLE k))

/-! ## `calculate_aggregates` -/

/-- One `Counter` increment: bump the entry for `v`, appending a fresh
entry at the end on first occurrence (Python dicts preserve insertion
order). -/
def tallyAdd [DecidableEq α] (acc : List (α × Nat)) (v : α) : List (α × Nat) :=
  match acc with
  | [] => [(v, 1)]
  | (w, c) :: t => if w = v then (w, c + 1) :: t else (w, c) :: tallyAdd t v

/-- `Counter(l)` as an association list in first-occurrence order. -/
def tally [DecidableEq α] (l : List α) : List (α × Nat) :=
  l.foldl tallyAdd []

/-- The aggregate report of `calculate_aggregates`. -/
structure Aggregates where
  total_spend : Rat
  mean_spend : Rat
  median_spend : Rat
  mode_spend : List Rat
  vendor_frequency : List (Value × Nat)
  category_frequency : List (Value × Nat)
deriving DecidableEq, Repr

/-- `[r.get("amount", 0.0) for r in receipts]`, demanding numeric values
(a non-numeric amount makes the source's `sum`/`sorted` raise, modelled
as `none`). -/
def amountsOf : List RRecord → Option (List Rat)
  | [] => some []
  | r :: rs =>
    match (dget r "amount").getD (.num 0) with
    | .num q => (amountsOf rs).map fun l => q :: l
    | _ => Option.none

/-- `sorted_amounts = sorted(amounts)`. -/
def sortedAmounts (amounts : List Rat) : List Rat :=
  amounts.insertionSort (· ≤ ·)

/-- The median computation of `calculate_aggregates`: middle of the
sorted amounts, averaging the two middle values for an even count. -/
def medianOf (amounts : List Rat) : Rat :=
  if amounts.length % 2 == 0 then
    ((sortedAmounts amounts).getD (amounts.length / 2 - 1) 0 +
      (sortedAmounts amounts).getD (amounts.length / 2) 0) / 2
  else (sortedAmounts amounts).getD (amounts.length / 2) 0

/-- `max_count = max(amount_counts.values())` (0 on an empty counter). -/
def maxCount (amounts : List Rat) : Nat :=
  ((tally amounts).map (·.2)).foldr max 0

/-- The mode computation: every amount whose occurrence count ties the
maximum, in first-occurrence order. -/
def modeOf (amounts : List Rat) : List Rat :=
  ((tally amounts).filter fun p => p.2 == maxCount amounts).map Prod.fst

/-- The aggregate record built for a non-empty receipt list. -/
def aggOf (rs : List RRecord) (amounts : List Rat) : Aggregates :=
  { total_spend := amounts.foldl (· + ·) 0
    mean_spend := (amounts.foldl (· + ·) 0) / (amounts.length : Rat)
    median_spend := medianOf amounts
    mode_spend := modeOf amounts
    vendor_frequency := tally (rs.map fun r => (dget r "vendor").getD (.str "Unknown"))
    category_frequency := tally (rs.map fun r => (dget r "category").getD (.str "Unknown")) }

/-- `calculate_aggregates(receipts)`. -/
def calculateAggregates (rs : List RRecord) : Option Aggregates :=
  if rs.isEmpty then some ⟨0, 0, 0, [], [], []⟩
  else (amountsOf rs).map (aggOf rs)

/-! ## `time_series_aggregation` -/

/-- The two Python exception kinds the function can raise. -/
inductive PyErr where
  | valueError
  | typeError
deriving DecidableEq, Repr

/-- Period label of a record's date: `strftime("%Y-%m")` or
`strftime("%Y")`, or the `ValueError` for an unrecognized period. -/
def tsLabel (d : PyDateTime) (period : String) : Except PyErr String :=
  if period == "month" then .ok (pad4 d.year ++ "-" ++ pad2 d.month)
  else if period == "year" then .ok (pad4 d.year)
  else .error .valueError

/-- `Counter[key] += amount` on the accumulating association list. -/
def tsAdd (acc : List (String × Rat)) (key : String) (q : Rat) : List (String × Rat) :=
  match acc with
  | [] => [(key, q)]
  | (k, v) :: t => if k = key then (k, v + q) :: t else (k, v) :: tsAdd t key q

/-- The loop body of `time_series_aggregation`: records without a
`datetime` date are skipped; for dated records the period label is
computed (raising on an invalid period) and the amount accumulated
(raising `TypeError` on a non-numeric amount). -/
def tsStep (period : String) (acc : List (String × Rat)) (r : RRecord) :
    Except PyErr (List (String × Rat)) :=
  match dget r "transaction_date" with
  | some (.date d) => do
    let key ← tsLabel d period
    match (dget r "amount").getD (.num 0) with
    | .num q => pure (tsAdd acc key q)
    | _ => throw .typeError
  | _ => pure acc

/-- `time_series_aggregation(receipts, period)`: bucket the records that
carry a `datetime` date, summing amounts per period label; the period is
only inspected (and an invalid one only raises) when such a record is
encountered; the result is the bucket list sorted ascending by label. -/
def timeSeriesAggregation (rs : List RRecord) (period : String) :
    Except PyErr (List (String × Rat)) := do
  let data ← rs.foldlM (tsStep period) ([] : List (String × Rat))
  pure (data.insertionSort fun a b => a.1 ≤ b.1)

/-- Does the record carry a `datetime` under `"transaction_date"`?  (The
condition `tx_date and isinstance(tx_date, datetime)` of the source.) -/
def hasDatetime (r : RRecord) : Bool :=
  match dget r "transaction_date" with
  | some (.date _) => true
  | _ => false

/-! ## Helper lemmas: amount extraction -/

theorem tryAmountPattern_pos {m} {t : List Char} {v : Rat}
    (h : tryAmountPattern m t = some v) : 0 < v := by
  unfold tryAmountPattern at h
  split at h
  · exact absurd h (by simp)
  · split at h
    · split at h
      · cases h; assumption
      · exact absurd h (by simp)
    · exact absurd h (by simp)

theorem extractAmount_pos (t : List Char) : 0 < extractAmount t := by
  unfold extractAmount
  cases h : amountMatchers.findSome? (fun m => tryAmountPattern m t) with
  | none => norm_num
  | some v =>
    obtain ⟨m, _, hm⟩ := List.exists_of_findSome?_eq_some h
    simpa using tryAmountPattern_pos hm

/-! ## Helper lemmas: time-series granularity check -/

theorem tsStep_invalid {g : String} (hm : g ≠ "month") (hy : g ≠ "year")
    (acc : List (String × Rat)) (r : RRecord) :
    tsStep g acc r =
      (if hasDatetime r then Except.error PyErr.valueError else Except.ok acc) := by
  unfold tsStep hasDatetime
  cases h : dget r "transaction_date" with
  | none => rfl
  | some v =>
    cases v with
    | date d =>
      simp only [if_pos]
      show (tsLabel d g >>= _) = Except.error PyErr.valueError
      have : tsLabel d g = Except.error PyErr.valueError := by
        unfold tsLabel
        rw [if_neg (by simpa using hm), if_neg (by simpa using hy)]
      rw [this]; rfl
    | num q => rfl
    | str s => rfl
    | none => rfl

theorem ts_fold_invalid {g : String} (hm : g ≠ "month") (hy : g ≠ "year") :
    ∀ (rs : List RRecord) (acc : List (String × Rat)),
      List.foldlM (tsStep g) acc rs =
        (if rs.any hasDatetime then Except.error PyErr.valueError else Except.ok acc)
  | [], acc => rfl
  | r :: rs, acc => by
    rw [List.foldlM_cons, tsStep_invalid hm hy]
    by_cases h : hasDatetime r
    · simp only [h, if_true, List.any_cons, Bool.true_or]
      rfl
    · simp only [h, if_false, List.any_cons, Bool.false_or]
      show List.foldlM (tsStep g) acc rs = _
      exact ts_fold_invalid hm hy rs acc

/-! ## Helper lemmas: vendor non-emptiness -/

/-- The six ASCII whitespace characters, as a list. -/
def wsChars : List Char := [' ', '\t', '\n', '\r', Char.ofNat 11, Char.ofNat 12]

theorem isPySpace_mem {c : Char} (h : isPySpace c = true) : c ∈ wsChars := by
  simp only [isPySpace, Bool.or_eq_true, beq_iff_eq] at h
  rcases h with ((((h | h) | h) | h) | h) | h <;> simp [wsChars, h]

theorem dropWhile_ne_nil_of_mem {p : Char → Bool} {l : List Char} {c : Char}
    (hc : c ∈ l) (hp : p c = false) : l.dropWhile p ≠ [] := by
  induction l with
  | nil => cases hc
  | cons a t ih =>
    rw [List.dropWhile_cons]
    rcases List.mem_cons.mp hc with rfl | hct
    · rw [hp]; simp
    · by_cases ha : p a
      · simpa [ha] using ih hct
      · simp [ha]

theorem pyStrip_ne_nil {c : Char} {l : List Char} (hc : isPySpace c = false) :
    pyStrip (c :: l) ≠ [] := by
  unfold pyStrip
  intro h
  have h1 : (c :: l).dropWhile isPySpace = c :: l := by
    rw [List.dropWhile_cons, hc]; simp
  rw [h1, List.reverse_eq_nil_iff] at h
  exact dropWhile_ne_nil_of_mem (l := (c :: l).reverse) (by simp) hc h

theorem searchCI_hit {kws : List (List Char)} {s m : List Char}
    (h : (kws.findSome? fun kw =>
        if ciLeads kw s then some (s.take kw.length) else none) = some m) :
    ∃ kw ∈ kws, ciLeads kw s = true ∧ m = s.take kw.length := by
  obtain ⟨kw, hmem, hf⟩ := List.exists_of_findSome?_eq_some h
  by_cases hc : ciLeads kw s
  · rw [if_pos hc] at hf
    exact ⟨kw, hmem, hc, (Option.some_inj.mp hf).symm⟩
  · rw [if_neg hc] at hf
    cases hf

theorem searchCI_spec {kws : List (List Char)} :
    ∀ {s m : List Char}, searchCI kws s = some m →
      ∃ kw ∈ kws, ∃ t : List Char, ciLeads kw t = true ∧ m = t.take kw.length
  | [], m, h => by
    unfold searchCI at h
    obtain ⟨kw, hmem, hf⟩ := List.exists_of_findSome?_eq_some h
    by_cases hc : ciLeads kw []
    · rw [if_pos hc] at hf
      cases hf
      exact ⟨kw, hmem, [], hc, by simp⟩
    · rw [if_neg hc] at hf
      cases hf
  | a :: s, m, h => by
    unfold searchCI at h
    split at h
    · rename_i m' hf
      cases h
      obtain ⟨kw, hmem, hci, rfl⟩ := searchCI_hit hf
      exact ⟨kw, hmem, a :: s, hci, rfl⟩
    · exact searchCI_spec h

theorem ciLeads_cons {k : Char} {kt s : List Char} (h : ciLeads (k :: kt) s = true) :
    ∃ c cs, s = c :: cs ∧ k.toLower = c.toLower := by
  cases s with
  | nil => simp [ciLeads] at h
  | cons c cs =>
    refine ⟨c, cs, rfl, ?_⟩
    unfold ciLeads at h
    exact beq_iff_eq.mp (Bool.and_elim_left h)

/-- The head of a vendor keyword never case-folds to a whitespace
character (checked over the six whitespace characters). -/
def kwHeadSturdy (kw : List Char) : Bool :=
  wsChars.all fun c => !((kw.headD 'a').toLower == c.toLower)

theorem keyword_strip_ne_nil {kws : List (List Char)} {s m : List Char}
    (hall : kws.all (fun kw => !kw.isEmpty && kwHeadSturdy kw) = true)
    (h : searchCI kws s = some m) : pyStrip m ≠ [] := by
  obtain ⟨kw, hmem, t, hci, rfl⟩ := searchCI_spec h
  have hkw := List.all_eq_true.mp hall kw hmem
  rw [Bool.and_eq_true] at hkw
  cases kw with
  | nil => simp at hkw
  | cons k kt =>
    obtain ⟨c, cs, rfl, hlow⟩ := ciLeads_cons hci
    have htake : (c :: cs).take (k :: kt).length = c :: cs.take kt.length := by
      simp [List.take_succ_cons]
    rw [htake]
    apply pyStrip_ne_nil
    by_contra hcspace
    rw [Bool.not_eq_false] at hcspace
    have hmemws : c ∈ wsChars := isPySpace_mem hcspace
    have := List.all_eq_true.mp hkw.2 c hmemws
    simp only [List.headD_cons, Bool.not_eq_eq_eq_not, Bool.not_true, beq_eq_false_iff_ne,
      ne_eq] at this
    exact this hlow

theorem goodKws1 : vendorKws1.all (fun kw => !kw.isEmpty && kwHeadSturdy kw) = true := by
  decide

theorem goodKws2 : vendorKws2.all (fun kw => !kw.isEmpty && kwHeadSturdy kw) = true := by
  decide

theorem lineVendor_ne_nil {t l : List Char} (h : lineVendor t = some l) : l ≠ [] := by
  have hp := List.find?_some h
  rw [Bool.and_eq_true, Bool.and_eq_true] at hp
  have h3 : 3 < l.length := by
    have := hp.1.2
    simpa using this
  intro hnil
  rw [hnil] at h3
  simp at h3

theorem extractVendor_ne_nil (t : List Char) : extractVendor t ≠ [] := by
  unfold extractVendor
  cases hl : lineVendor t with
  | some l => simpa using lineVendor_ne_nil hl
  | none =>
    cases hk : keywordVendor t with
    | none => decide
    | some m =>
      unfold keywordVendor at hk
      split at hk
      · rename_i m' hf
        cases hk
        simpa using keyword_strip_ne_nil goodKws1 hf
      · simpa using keyword_strip_ne_nil goodKws2 hk

/-! ## Helper lemmas: category membership and date validity -/

theorem extractCategory_mem (t : List Char) :
    extractCategory t ∈
      ["Groceries", "Utilities", "Internet/Telecom", "Dining", "Health", "Miscellaneous"] := by
  simp only [extractCategory]
  split_ifs <;> simp

theorem mkDate_valid {y m d : Nat} {dt : PyDateTime} (h : mkDate y m d = some dt) :
    ValidDate dt := by
  unfold mkDate at h
  split at h
  · cases h
    rename_i hcond
    simp only [Bool.and_eq_true, decide_eq_true_eq] at hcond
    unfold ValidDate
    tauto
  · cases h

theorem mkFmt_valid {p : List Char → Option (Nat × Nat × Nat)} {s : List Char}
    {dt : PyDateTime} (h : mkFmt p s = some dt) : ValidDate dt := by
  unfold mkFmt at h
  cases hp : p s with
  | none => rw [hp] at h; cases h
  | some trip => rw [hp] at h; exact mkDate_valid h

theorem parseDateString_valid {ds : List Char} {dt : PyDateTime}
    (h : parseDateString ds = some dt) : ValidDate dt := by
  unfold parseDateString at h
  obtain ⟨f, hmem, hf⟩ := List.exists_of_findSome?_eq_some h
  simp only [strptimeFormats, List.mem_cons, List.not_mem_nil, or_false] at hmem
  rcases hmem with rfl | rfl | rfl | rfl | rfl | rfl | rfl | rfl | rfl | rfl <;>
    exact mkFmt_valid hf

theorem extractDate_valid {t : List Char} {dt : PyDateTime}
    (h : extractDate t = some dt) : ValidDate dt := by
  unfold extractDate at h
  obtain ⟨p, _, hp⟩ := List.exists_of_findSome?_eq_some h
  obtain ⟨ds, _, h2⟩ := Option.bind_eq_some.mp hp
  exact parseDateString_valid h2

/-! ## Claim C1 -/

/-- C1: for every input text (and valid ambient current time), the field
extractor returns a fully-populated record satisfying the invariants:
`vendor` is a non-empty string, `amount` is strictly positive, `category`
is one of the six fixed labels, and `transaction_date` is a calendar-valid
instant; moreover the documented sentinels are substituted when extraction
is inconclusive (`now` when no date parses, `"Unknown Vendor"` when both
vendor steps fail).  Totality itself is witnessed by `parseReceiptText`
being a total function. -/
theorem C1_extractor_invariants (text : String) (now : PyDateTime)
    (hnow : ValidDate now) :
    (parseReceiptText text now).vendor ≠ "" ∧
    0 < (parseReceiptText text now).amount ∧
    (parseReceiptText text now).category ∈
      ["Groceries", "Utilities", "Internet/Telecom", "Dining", "Health", "Miscellaneous"] ∧
    ValidDate (parseReceiptText text now).transaction_date ∧
    (extractDate text.toList = Option.none →
      (parseReceiptText text now).transaction_date = now) ∧
    (keywordVendor text.toList = Option.none → lineVendor text.toList = Option.none →
      (parseReceiptText text now).vendor = "Unknown Vendor") := by
  refine ⟨?_, extractAmount_pos _, extractCategory_mem _, ?_, ?_, ?_⟩
  · show (extractVendor text.toList).asString ≠ ""
    intro h
    exact extractVendor_ne_nil text.toList (congrArg String.data h)
  · show ValidDate ((extractDate text.toList).getD now)
    cases h : extractDate text.toList with
    | none => simpa using hnow
    | some d => simpa using extractDate_valid h
  · intro h
    show (extractDate text.toList).getD now = now
    rw [h]
    rfl
  · intro h1 h2
    show (extractVendor text.toList).asString = "Unknown Vendor"
    unfold extractVendor
    rw [h2, h1]
    rfl

/-- Witness for C1 at the concrete text `"ab"` (every extraction step
inconclusive) and current time 2024-01-01. -/
theorem C1_extractor_invariants_witness :
    (parseReceiptText "ab" ⟨2024, 1, 1⟩).vendor ≠ "" ∧
    0 < (parseReceiptText "ab" ⟨2024, 1, 1⟩).amount ∧
    (parseReceiptText "ab" ⟨2024, 1, 1⟩).category ∈
      ["Groceries", "Utilities", "Internet/Telecom", "Dining", "Health", "Miscellaneous"] ∧
    ValidDate (parseReceiptText "ab" ⟨2024, 1, 1⟩).transaction_date ∧
    (extractDate "ab".toList = Option.none →
      (parseReceiptText "ab" ⟨2024, 1, 1⟩).transaction_date = ⟨2024, 1, 1⟩) ∧
    (keywordVendor "ab".toList = Option.none → lineVendor "ab".toList = Option.none →
      (parseReceiptText "ab" ⟨2024, 1, 1⟩).vendor = "Unknown Vendor") :=
  C1_extractor_invariants "ab" ⟨2024, 1, 1⟩ (by decide)

/-! ## Claim C10 -/

/-- C10: the comma normalization `raw_amount.replace(',', '.')` turns a
numeral with both a comma thousands separator and a decimal part into an
unparseable string, the pattern whose last match it was is abandoned, and
with every pattern's last match of that shape the amount falls back to
the `0.01` sentinel: concretely, on `"TOTAL: 1,234.56"` the keyword
pattern's only capture is `"1,234.56"`, its normalization fails to parse,
and the extracted amount is `0.01`, not `1234.56`. -/
theorem C10_comma_thousands_sentinel :
    scanAll matchKeywordAmt "TOTAL: 1,234.56".toList = ["1,234.56".toList] ∧
    parseFloatQ (commaToDot "1,234.56".toList) = Option.none ∧
    extractAmount "TOTAL: 1,234.56".toList = 1 / 100 := by
  refine ⟨by decide, by decide, by decide⟩

/-! ## Claim C2 -/

/-- C2 (failing input for the claimed priority): on `"ABCD Store"` the
keyword scan does match (yielding vendor `"Store"`), yet the line-by-line
scan — which the source runs unconditionally rather than only when no
keyword matched — overwrites it, and the extractor returns
`"ABCD Store"`. -/
theorem C2_line_scan_overrides_keyword :
    (searchCI vendorKws1 "ABCD Store".toList).map (fun m => (pyStrip m).asString)
        = some "Store" ∧
    (extractVendor "ABCD Store".toList).asString = "ABCD Store" := by
  refine ⟨by decide, by decide⟩

/-! ## Claim C3 -/

/-- C3: amount resolution tries the four patterns in priority order — if
the keyword-anchored pattern's last match parses to a strictly positive
value, that value is the result; if every pattern fails, the result is
the `0.01` sentinel; and on `"TOTAL: $45.00\nITEM A 12\n12.00"` the
resolved amount is `45.00` (the keyword-anchored match), not the bare
trailing `12.00`, while on two keyword matches the last one wins. -/
theorem C3_amount_pattern_priority :
    (∀ (t : List Char) (v : Rat),
        tryAmountPattern matchKeywordAmt t = some v → extractAmount t = v) ∧
    (∀ t : List Char,
        (∀ m ∈ amountMatchers, tryAmountPattern m t = Option.none) →
        extractAmount t = 1 / 100) ∧
    extractAmount "TOTAL: $45.00\nITEM A 12\n12.00".toList = 45 ∧
    extractAmount "TOTAL: 5.00\nTOTAL: 7.50".toList = 15 / 2 := by
  refine ⟨?_, ?_, by decide, by decide⟩
  · intro t v h
    unfold extractAmount amountMatchers
    simp [List.findSome?_cons, h]
  · intro t h
    unfold extractAmount
    have h1 := h matchKeywordAmt (by simp [amountMatchers])
    have h2 := h matchSymbolAmt (by simp [amountMatchers])
    have h3 := h matchCodeAmt (by simp [amountMatchers])
    have h4 := h matchEolAmt (by simp [amountMatchers])
    simp [amountMatchers, List.findSome?_cons, h1, h2, h3, h4]

/-- Witness for C3: the first-pattern clause applied at a concrete text. -/
theorem C3_amount_pattern_priority_witness :
    extractAmount "DUE 9.99 paid 3.00 x".toList = 999 / 100 :=
  C3_amount_pattern_priority.1 "DUE 9.99 paid 3.00 x".toList (999 / 100) (by decide)

/-! ## Claim C5 -/

/-- C5 counterexample: on the empty record list an invalid granularity
does not raise — `time_series_aggregation([], "week")` returns the empty
mapping, contradicting the claim that the call fails for every record
list including the empty one. -/
theorem C5_counterexample_empty_list :
    timeSeriesAggregation [] "week" = Except.ok [] := rfl

/-- C5 (amended): an unrecognized granularity raises the invalid-argument
`ValueError` if and only if some record carries a `datetime` date (the
check sits inside the per-record loop); with no dated record — in
particular on the empty list — the call silently returns the empty
mapping. -/
theorem C5_invalid_granularity (rs : List RRecord) (g : String)
    (hm : g ≠ "month") (hy : g ≠ "year") :
    (rs.any hasDatetime = true →
        timeSeriesAggregation rs g = Except.error PyErr.valueError) ∧
    (rs.any hasDatetime = false → timeSeriesAggregation rs g = Except.ok []) := by
  unfold timeSeriesAggregation
  rw [ts_fold_invalid hm hy rs ([] : List (String × Rat))]
  constructor <;> intro h
  · rw [h]; rfl
  · rw [h]; rfl

/-- Witness for C5: a dated record with granularity `"week"` raises. -/
theorem C5_invalid_granularity_witness :
    timeSeriesAggregation [[("transaction_date", Value.date ⟨2024, 1, 5⟩)]] "week"
      = Except.error PyErr.valueError :=
  (C5_invalid_granularity [[("transaction_date", Value.date ⟨2024, 1, 5⟩)]] "week"
    (by decide) (by decide)).1 (by decide)

/-! ## Helper lemmas: the sort-key ordering -/

theorem skLe_refl (a : SKey) : skLe a a := by
  cases a
  · exact le_refl _
  · exact le_refl _

theorem skLe_total (a b : SKey) : skLe a b ∨ skLe b a := by
  cases a <;> cases b
  · exact le_total _ _
  · exact Or.inl trivial
  · exact Or.inr trivial
  · exact le_total _ _

theorem skLe_trans {a b c : SKey} (h1 : skLe a b) (h2 : skLe b c) : skLe a c := by
  cases a <;> cases b <;> cases c
  · exact le_trans h1 h2
  · exact trivial
  · exact h2.elim
  · exact trivial
  · exact h1.elim
  · exact h1.elim
  · exact h2.elim
  · exact le_trans h1 h2

theorem skLe_antisymm {a b : SKey} (h1 : skLe a b) (h2 : skLe b a) : a = b := by
  cases a <;> cases b
  · exact congrArg Sum.inl (le_antisymm h1 h2)
  · exact h2.elim
  · exact h1.elim
  · exact congrArg Sum.inr (le_antisymm h1 h2)

instance (k : String) : IsTotal RRecord (keyLE k) :=
  ⟨fun a b => skLe_total (sortKey a k) (sortKey b k)⟩

instance (k : String) : IsTrans RRecord (keyLE k) :=
  ⟨fun _ _ _ h1 h2 => skLe_trans h1 h2⟩

instance (k : String) : IsTotal RRecord (keyGE k) :=
  ⟨fun a b => skLe_total (sortKey b k) (sortKey a k)⟩

instance (k : String) : IsTrans RRecord (keyGE k) :=
  ⟨fun _ _ _ h1 h2 => skLe_trans h2 h1⟩

/-! ## Helper lemmas: stability and uniqueness of sorted permutations -/

theorem filter_orderedInsert {α : Type} (rel : α → α → Prop) [DecidableRel rel]
    (p : α → Bool) (hp : ∀ a b, p a = true → p b = true → rel a b)
    (a : α) (l : List α) :
    (l.orderedInsert rel a).filter p =
      if p a then a :: l.filter p else l.filter p := by
  rw [List.orderedInsert_eq_take_drop, List.filter_append]
  by_cases hpa : p a
  · rw [if_pos hpa]
    have htake : (l.takeWhile fun b => decide ¬rel a b).filter p = [] := by
      rw [List.filter_eq_nil_iff]
      intro b hb
      have hni := List.mem_takeWhile_imp hb
      simp only [decide_eq_true_eq] at hni
      intro hpb
      exact hni (hp a b hpa hpb)
    rw [htake, List.filter_cons, if_pos hpa]
    have heq : l.filter p = (l.dropWhile fun b => decide ¬rel a b).filter p := by
      conv_lhs => rw [← List.takeWhile_append_dropWhile
        (p := fun b => decide ¬rel a b) (l := l)]
      rw [List.filter_append, htake, List.nil_append]
    rw [heq, List.nil_append]
  · rw [if_neg hpa, List.filter_cons, if_neg hpa]
    conv_rhs => rw [← List.takeWhile_append_dropWhile
      (p := fun b => decide ¬rel a b) (l := l)]
    rw [List.filter_append]

theorem filter_insertionSort {α : Type} (rel : α → α → Prop) [DecidableRel rel]
    (p : α → Bool) (hp : ∀ a b, p a = true → p b = true → rel a b) :
    ∀ l : List α, (l.insertionSort rel).filter p = l.filter p
  | [] => rfl
  | a :: l => by
    rw [List.insertionSort, filter_orderedInsert rel p hp,
      filter_insertionSort rel p hp l, List.filter_cons]

theorem sorted_perm_eq_of_nodup {α : Type} (rel : α → α → Prop) :
    ∀ (l₁ l₂ : List α), l₁.Perm l₂ → l₁.Nodup →
      (∀ a ∈ l₁, ∀ b ∈ l₁, rel a b → rel b a → a = b) →
      l₁.Pairwise rel → l₂.Pairwise rel → l₁ = l₂
  | [], _, hp, _, _, _, _ => hp.nil_eq
  | a :: t₁, l₂, hp, hnd, hanti, h₁, h₂ => by
    have ha : a ∈ l₂ := hp.subset (List.mem_cons_self a t₁)
    obtain ⟨u, v, rfl⟩ := List.append_of_mem ha
    have hnd₂ : (u ++ a :: v).Nodup := hp.nodup_iff.mp hnd
    have hu : u = [] := by
      cases u with
      | nil => rfl
      | cons x u' =>
        exfalso
        have hxl1 : x ∈ a :: t₁ := hp.symm.subset (by simp)
        have hxa : rel x a :=
          (List.pairwise_append.mp h₂).2.2 x (by simp) a (by simp)
        have hxeq : x = a := by
          rcases List.mem_cons.mp hxl1 with h | hxt
          · exact h
          · exact hanti x hxl1 a (List.mem_cons_self a t₁) hxa
              ((List.pairwise_cons.mp h₁).1 x hxt)
        subst hxeq
        have hdis := (List.nodup_append.mp hnd₂).2.2
        exact hdis (show x ∈ x :: u' by simp) (show x ∈ x :: v by simp)
    subst hu
    rw [List.nil_append] at hp h₂ ⊢
    have hp' : t₁.Perm v := (List.perm_cons a).mp hp
    have hrec := sorted_perm_eq_of_nodup rel t₁ v hp' (List.Nodup.of_cons hnd)
      (fun x hx y hy => hanti x (List.mem_cons_of_mem a hx) y (List.mem_cons_of_mem a hy))
      (List.pairwise_cons.mp h₁).2 (List.pairwise_cons.mp h₂).2
    rw [hrec]

/-- Dissect a successful `sortReceipts` call. -/
theorem sortReceipts_eq_some {rs : List RRecord} {k : String} {rev : Bool}
    {out : List RRecord} (h : sortReceipts rs k rev = some out) :
    out = (if rev then rs.insertionSort (keyGE k) else rs.insertionSort (keyLE k)) := by
  unfold sortReceipts at h
  split at h
  · cases h
  · exact (Option.some_inj.mp h).symm

/-! ## Claim C4 -/

/-- C4 counterexample: for the two-record list whose first record has the
string amount `"abc"` and whose second has the numeric amount `5`, the
claim prescribes string comparison (inferred from the first-inspected
record) and a well-defined result, but `sort_receipts` fails (Python
raises `TypeError` on the mixed numeric/string keys; modelled as `none`). -/
theorem C4_counterexample_mixed_kind_failure :
    sortReceipts [[("amount", Value.str "abc")], [("amount", Value.num 5)]]
      "amount" false = Option.none := by
  rfl

/-- C4 (amended): the sort key is computed per record — a numeric value is
compared as a number, any other value as its string form, an absent field
as the empty string — and the sort is well-defined exactly when the
computed keys do not mix the numeric and string kinds; when both kinds
occur the call fails with `TypeError`.  On success the result is a
permutation of the input sorted by the computed keys. -/
theorem C4_per_record_key_typing (rs : List RRecord) (k : String) (rev : Bool) :
    (sortReceipts rs k rev = Option.none ↔
      ((∃ r ∈ rs, isNumKey r k = true) ∧ (∃ r ∈ rs, isNumKey r k = false))) ∧
    (∀ r : RRecord, dget r k = Option.none → sortKey r k = Sum.inr "") ∧
    (∀ out, sortReceipts rs k rev = some out →
      out.Perm rs ∧ out.Pairwise (if rev then keyGE k else keyLE k)) := by
  refine ⟨?_, ?_, ?_⟩
  · constructor
    · intro hnone
      by_cases h : (rs.any (fun r => isNumKey r k) && rs.any fun r => !isNumKey r k) = true
      · rw [Bool.and_eq_true, List.any_eq_true, List.any_eq_true] at h
        obtain ⟨⟨r1, hr1, hn1⟩, r2, hr2, hn2⟩ := h
        exact ⟨⟨r1, hr1, hn1⟩, ⟨r2, hr2, by simpa using hn2⟩⟩
      · exfalso
        unfold sortReceipts at hnone
        rw [if_neg h] at hnone
        cases hnone
    · rintro ⟨⟨r1, hr1, hn1⟩, r2, hr2, hn2⟩
      unfold sortReceipts
      rw [if_pos]
      rw [Bool.and_eq_true, List.any_eq_true, List.any_eq_true]
      exact ⟨⟨r1, hr1, hn1⟩, ⟨r2, hr2, by simp [hn2]⟩⟩
  · intro r h
    unfold sortKey
    rw [h]
  · intro out h
    rw [sortReceipts_eq_some h]
    cases rev with
    | false =>
      exact ⟨List.perm_insertionSort (keyLE k) rs, List.sorted_insertionSort (keyLE k) rs⟩
    | true =>
      exact ⟨List.perm_insertionSort (keyGE k) rs, List.sorted_insertionSort (keyGE k) rs⟩

/-- Witness for C4: the success clause at an all-numeric two-record list. -/
theorem C4_per_record_key_typing_witness :
    ([[("amount", Value.num 3)], [("amount", Value.num 5)]] : List RRecord).Perm
        [[("amount", Value.num 5)], [("amount", Value.num 3)]] ∧
    ([[("amount", Value.num 3)], [("amount", Value.num 5)]] : List RRecord).Pairwise
        (if false then keyGE "amount" else keyLE "amount") :=
  (C4_per_record_key_typing
      [[("amount", Value.num 5)], [("amount", Value.num 3)]] "amount" false).2.2
    [[("amount", Value.num 3)], [("amount", Value.num 5)]] (by rfl)

/-! ## Claim C6 -/

/-- C6: when both directions of `sort_receipts` succeed, descending order
is exactly the reverse of ascending order whenever all records carry
distinct sort keys, and both directions are stable — the records with any
fixed key value appear in their original relative order (the pure
embedding returns fresh lists, so the input collection is never
mutated). -/
theorem C6_sort_reverse_and_stability (rs : List RRecord) (k : String)
    (la ld : List RRecord)
    (ha : sortReceipts rs k false = some la) (hd : sortReceipts rs k true = some ld) :
    ((rs.map fun r => sortKey r k).Nodup → ld = la.reverse) ∧
    (∀ v : SKey,
      la.filter (fun r => decide (sortKey r k = v))
          = rs.filter (fun r => decide (sortKey r k = v)) ∧
      ld.filter (fun r => decide (sortKey r k = v))
          = rs.filter (fun r => decide (sortKey r k = v))) := by
  have hla : la = rs.insertionSort (keyLE k) := by simpa using sortReceipts_eq_some ha
  have hld : ld = rs.insertionSort (keyGE k) := by simpa using sortReceipts_eq_some hd
  constructor
  · intro hnd
    have hinj : ∀ a ∈ rs, ∀ b ∈ rs, sortKey a k = sortKey b k → a = b :=
      fun a ha' b hb' heq => List.inj_on_of_nodup_map hnd ha' hb' heq
    have hrsnd : rs.Nodup := List.Nodup.of_map _ hnd
    have hldperm : ld.Perm la.reverse := by
      rw [hla, hld]
      exact ((List.perm_insertionSort _ rs).trans
        (List.perm_insertionSort _ rs).symm).trans (List.reverse_perm _).symm
    have hldnd : ld.Nodup := by
      rw [hld]
      exact ((List.perm_insertionSort _ rs).nodup_iff).mpr hrsnd
    have hanti : ∀ a ∈ ld, ∀ b ∈ ld, keyGE k a b → keyGE k b a → a = b := by
      intro a ha' b hb' hab hba
      have hmem := (List.perm_insertionSort (keyGE k) rs).subset
      rw [hld] at ha' hb'
      exact hinj a (hmem ha') b (hmem hb') (skLe_antisymm hba hab)
    have hsld : ld.Pairwise (keyGE k) := by
      rw [hld]
      exact List.sorted_insertionSort (keyGE k) rs
    have hsrev : (la.reverse).Pairwise (keyGE k) := by
      rw [hla]
      rw [List.pairwise_reverse]
      exact List.sorted_insertionSort (keyLE k) rs
    exact sorted_perm_eq_of_nodup (keyGE k) ld la.reverse hldperm hldnd hanti hsld hsrev
  · intro v
    have hp1 : ∀ a b : RRecord,
        decide (sortKey a k = v) = true → decide (sortKey b k = v) = true → keyLE k a b := by
      intro a b hav hbv
      unfold keyLE
      rw [of_decide_eq_true hav, of_decide_eq_true hbv]
      exact skLe_refl v
    have hp2 : ∀ a b : RRecord,
        decide (sortKey a k = v) = true → decide (sortKey b k = v) = true → keyGE k a b := by
      intro a b hav hbv
      unfold keyGE
      rw [of_decide_eq_true hav, of_decide_eq_true hbv]
      exact skLe_refl v
    constructor
    · rw [hla]
      exact filter_insertionSort (keyLE k) _ hp1 rs
    · rw [hld]
      exact filter_insertionSort (keyGE k) _ hp2 rs

/-- Witness for C6: three records with distinct amounts, sorted both ways
at a concrete input; descending equals the reverse of ascending. -/
theorem C6_sort_reverse_and_stability_witness :
    ([[("amount", Value.num 3)], [("amount", Value.num 2)], [("amount", Value.num 1)]]
        : List RRecord)
      = ([[("amount", Value.num 1)], [("amount", Value.num 2)], [("amount", Value.num 3)]]
        : List RRecord).reverse :=
  (C6_sort_reverse_and_stability
      [[("amount", Value.num 2)], [("amount", Value.num 1)], [("amount", Value.num 3)]]
      "amount"
      [[("amount", Value.num 1)], [("amount", Value.num 2)], [("amount", Value.num 3)]]
      [[("amount", Value.num 3)], [("amount", Value.num 2)], [("amount", Value.num 1)]]
      (by rfl) (by rfl)).1 (by decide)

/-! ## Helper lemmas: `Counter` (tally) -/

/-- Lookup in a counter association list (0 when absent). -/
def alookN [DecidableEq α] : List (α × Nat) → α → Nat
  | [], _ => 0
  | (w, c) :: t, v => if w = v then c else alookN t v

theorem alookN_cons [DecidableEq α] (w : α) (d : Nat) (t : List (α × Nat)) (u : α) :
    alookN ((w, d) :: t) u = if w = u then d else alookN t u := rfl

theorem alookN_tallyAdd [DecidableEq α] (acc : List (α × Nat)) (v u : α) :
    alookN (tallyAdd acc v) u =
      if u = v then alookN acc u + 1 else alookN acc u := by
  induction acc with
  | nil =>
    by_cases h : u = v
    · subst h; simp [tallyAdd, alookN]
    · simp [tallyAdd, alookN, h, Ne.symm h]
  | cons p t ih =>
    obtain ⟨w, c⟩ := p
    unfold tallyAdd
    by_cases hw : w = v
    · rw [if_pos hw]
      by_cases hu : w = u
      · have huv : u = v := hu.symm.trans hw
        simp [alookN_cons, hu, huv]
      · have huv : ¬ u = v := fun hh => hu (hw.trans hh.symm)
        simp [alookN_cons, hu, huv]
    · rw [if_neg hw]
      by_cases hu : w = u
      · have huv : ¬ u = v := fun hh => hw (hu.trans hh)
        simp [alookN_cons, hu, huv]
      · simp [alookN_cons, hu, ih]

theorem mem_keys_tallyAdd [DecidableEq α] (acc : List (α × Nat)) (v u : α) :
    u ∈ (tallyAdd acc v).map Prod.fst ↔ u ∈ acc.map Prod.fst ∨ u = v := by
  induction acc with
  | nil => simp [tallyAdd, eq_comm]
  | cons p t ih =>
    obtain ⟨w, c⟩ := p
    unfold tallyAdd
    by_cases hw : w = v
    · subst hw
      rw [if_pos rfl]
      simp only [List.map_cons, List.mem_cons]
      tauto
    · rw [if_neg hw]
      simp only [List.map_cons, List.mem_cons, ih]
      tauto

theorem nodup_keys_tallyAdd [DecidableEq α] {acc : List (α × Nat)} (v : α)
    (h : (acc.map Prod.fst).Nodup) : ((tallyAdd acc v).map Prod.fst).Nodup := by
  induction acc with
  | nil => simp [tallyAdd]
  | cons p t ih =>
    obtain ⟨w, c⟩ := p
    simp only [List.map_cons, List.nodup_cons] at h
    unfold tallyAdd
    by_cases hw : w = v
    · subst hw
      rw [if_pos rfl]
      simp only [List.map_cons, List.nodup_cons]
      exact h
    · rw [if_neg hw]
      simp only [List.map_cons, List.nodup_cons]
      refine ⟨?_, ih h.2⟩
      rw [mem_keys_tallyAdd]
      rintro (hmem | rfl)
      · exact h.1 hmem
      · exact hw rfl

theorem alookN_fold_tally [DecidableEq α] [BEq α] [LawfulBEq α] :
    ∀ (l : List α) (acc : List (α × Nat)) (u : α),
      alookN (l.foldl tallyAdd acc) u = alookN acc u + l.count u
  | [], acc, u => by simp
  | a :: l, acc, u => by
    rw [List.foldl_cons, alookN_fold_tally l (tallyAdd acc a) u, alookN_tallyAdd,
      List.count_cons]
    by_cases h : u = a
    · subst h
      simp only [if_pos rfl, beq_self_eq_true, if_true]
      omega
    · have hba : (a == u) = false := beq_eq_false_iff_ne.mpr (Ne.symm h)
      rw [if_neg h, hba]
      simp

theorem mem_keys_fold_tally [DecidableEq α] :
    ∀ (l : List α) (acc : List (α × Nat)) (u : α),
      u ∈ (l.foldl tallyAdd acc).map Prod.fst ↔ u ∈ acc.map Prod.fst ∨ u ∈ l
  | [], acc, u => by simp
  | a :: l, acc, u => by
    rw [List.foldl_cons, mem_keys_fold_tally l (tallyAdd acc a) u, mem_keys_tallyAdd]
    simp only [List.mem_cons]
    tauto

theorem nodup_keys_fold_tally [DecidableEq α] :
    ∀ (l : List α) (acc : List (α × Nat)), (acc.map Prod.fst).Nodup →
      ((l.foldl tallyAdd acc).map Prod.fst).Nodup
  | [], _, h => h
  | a :: l, acc, h => by
    rw [List.foldl_cons]
    exact nodup_keys_fold_tally l _ (nodup_keys_tallyAdd a h)

theorem mem_assoc_iff_alookN [DecidableEq α] :
    ∀ {acc : List (α × Nat)}, (acc.map Prod.fst).Nodup → ∀ {u : α} {c : Nat},
      ((u, c) ∈ acc ↔ (u ∈ acc.map Prod.fst ∧ alookN acc u = c))
  | [], _, u, c => by simp [alookN]
  | (w, d) :: t, hnd, u, c => by
    simp only [List.map_cons, List.nodup_cons] at hnd
    simp only [List.mem_cons, List.map_cons, Prod.mk.injEq]
    by_cases hu : w = u
    · subst hu
      rw [mem_assoc_iff_alookN hnd.2, alookN_cons, if_pos rfl]
      constructor
      · rintro (⟨_, rfl⟩ | ⟨hmem, _⟩)
        · exact ⟨Or.inl rfl, rfl⟩
        · exact absurd hmem hnd.1
      · rintro ⟨_, rfl⟩
        exact Or.inl ⟨rfl, rfl⟩
    · rw [mem_assoc_iff_alookN hnd.2, alookN_cons, if_neg hu]
      constructor
      · rintro (⟨rfl, _⟩ | ⟨hmem, hl⟩)
        · exact absurd rfl hu
        · exact ⟨Or.inr hmem, hl⟩
      · rintro ⟨hw | hmem, hl⟩
        · exact absurd hw.symm hu
        · exact Or.inr ⟨hmem, hl⟩

theorem alookN_tally [DecidableEq α] [BEq α] [LawfulBEq α] (l : List α) (u : α) :
    alookN (tally l) u = l.count u := by
  unfold tally
  rw [alookN_fold_tally]
  simp [alookN]

theorem mem_keys_tally [DecidableEq α] (l : List α) (u : α) :
    u ∈ (tally l).map Prod.fst ↔ u ∈ l := by
  unfold tally
  rw [mem_keys_fold_tally]
  simp

theorem nodup_keys_tally [DecidableEq α] (l : List α) :
    ((tally l).map Prod.fst).Nodup := by
  unfold tally
  exact nodup_keys_fold_tally l [] (by simp)

theorem mem_tally_iff [DecidableEq α] [BEq α] [LawfulBEq α] {l : List α} {u : α}
    {c : Nat} : (u, c) ∈ tally l ↔ (u ∈ l ∧ c = l.count u) := by
  rw [mem_assoc_iff_alookN (nodup_keys_tally l), mem_keys_tally, alookN_tally]
  constructor
  · rintro ⟨h1, h2⟩
    exact ⟨h1, h2.symm⟩
  · rintro ⟨h1, h2⟩
    exact ⟨h1, h2.symm⟩

theorem le_foldr_max (ns : List Nat) : ∀ x ∈ ns, x ≤ ns.foldr max 0 := by
  induction ns with
  | nil => intro x hx; cases hx
  | cons a t ih =>
    intro x hx
    rw [List.foldr_cons]
    rcases List.mem_cons.mp hx with rfl | hxt
    · exact le_max_left _ _
    · exact le_trans (ih x hxt) (le_max_right _ _)

theorem foldr_max_mem : ∀ (ns : List Nat), ns.foldr max 0 ≠ 0 → ns.foldr max 0 ∈ ns
  | [], h => absurd rfl h
  | a :: t, h => by
    rw [List.foldr_cons] at h ⊢
    rcases le_total (t.foldr max 0) a with hle | hle
    · rw [max_eq_left hle] at h ⊢
      exact List.mem_cons_self a t
    · rw [max_eq_right hle] at h ⊢
      exact List.mem_cons_of_mem a (foldr_max_mem t h)

/-! ## Helper lemmas: aggregates dissection -/

theorem amountsOf_length : ∀ {rs : List RRecord} {amts : List Rat},
    amountsOf rs = some amts → amts.length = rs.length
  | [], amts, h => by
    cases h
    rfl
  | r :: rs, amts, h => by
    unfold amountsOf at h
    split at h
    · obtain ⟨l, hl, rfl⟩ := Option.map_eq_some.mp h
      simpa using amountsOf_length hl
    · cases h

theorem calculateAggregates_eq {rs : List RRecord} {amts : List Rat}
    (hne : rs ≠ []) (hamt : amountsOf rs = some amts) :
    calculateAggregates rs = some (aggOf rs amts) := by
  unfold calculateAggregates
  rw [if_neg (by simpa using hne), hamt]
  rfl

/-! ## Claim C7 -/

/-- C7: for every non-empty record list (with numeric amounts),
`medianSpend` is the middle of the amounts sorted ascending — the single
middle value for an odd count, the average of the two middle values for
an even count — stated against any sorted permutation `S` of the
amounts; and concretely the median of `[10, 20, 30]` is `20` and of
`[10, 20, 30, 40]` is `25`. -/
theorem C7_median_sort_middle (rs : List RRecord) (amts S : List Rat)
    (agg : Aggregates) (hne : rs ≠ []) (hamt : amountsOf rs = some amts)
    (hagg : calculateAggregates rs = some agg)
    (hperm : S.Perm amts) (hsort : S.Sorted (· ≤ ·)) :
    (agg.median_spend =
      if amts.length % 2 == 0 then
        (S.getD (amts.length / 2 - 1) 0 + S.getD (amts.length / 2) 0) / 2
      else S.getD (amts.length / 2) 0) ∧
    (calculateAggregates [[("amount", Value.num 10)], [("amount", Value.num 20)],
        [("amount", Value.num 30)]]).map Aggregates.median_spend = some 20 ∧
    (calculateAggregates [[("amount", Value.num 10)], [("amount", Value.num 20)],
        [("amount", Value.num 30)], [("amount", Value.num 40)]]).map
      Aggregates.median_spend = some 25 := by
  refine ⟨?_, by decide, by decide⟩
  rw [calculateAggregates_eq hne hamt] at hagg
  have hagg3 : agg = aggOf rs amts := (Option.some_inj.mp hagg).symm
  subst hagg3
  have hS : S = sortedAmounts amts :=
    List.eq_of_perm_of_sorted (hperm.trans (List.perm_insertionSort _ amts).symm)
      hsort (List.sorted_insertionSort _ amts)
  rw [hS]
  rfl

/-- Witness for C7 at a concrete three-record list with amounts
`[10, 30, 20]` and sorted permutation `[10, 20, 30]`. -/
theorem C7_median_sort_middle_witness :
    (aggOf [[("amount", Value.num 10)], [("amount", Value.num 30)],
        [("amount", Value.num 20)]] [10, 30, 20]).median_spend =
      if ([10, 30, 20] : List Rat).length % 2 == 0 then
        (([10, 20, 30] : List Rat).getD (([10, 30, 20] : List Rat).length / 2 - 1) 0 +
          ([10, 20, 30] : List Rat).getD (([10, 30, 20] : List Rat).length / 2) 0) / 2
      else ([10, 20, 30] : List Rat).getD (([10, 30, 20] : List Rat).length / 2) 0 :=
  (C7_median_sort_middle
    [[("amount", Value.num 10)], [("amount", Value.num 30)], [("amount", Value.num 20)]]
    [10, 30, 20] [10, 20, 30]
    (aggOf [[("amount", Value.num 10)], [("amount", Value.num 30)],
      [("amount", Value.num 20)]] [10, 30, 20])
    (by decide) (by decide) (by decide) (by decide) (by decide)).1

/-! ## Claim C8 -/

/-- C8: for every non-empty record list (with numeric amounts),
`modeSpend` is the set of ALL amount values tied for the highest
occurrence count — membership is characterized by having a maximal
count — and concretely the mode of `[5, 5, 10]` is `{5}` while the mode
of `[5, 5, 10, 10]` is `{5, 10}` (tie preserved). -/
theorem C8_mode_all_ties (rs : List RRecord) (amts : List Rat) (agg : Aggregates)
    (hne : rs ≠ []) (hamt : amountsOf rs = some amts)
    (hagg : calculateAggregates rs = some agg) :
    (∀ v : Rat, v ∈ agg.mode_spend ↔
      (v ∈ amts ∧ ∀ w ∈ amts, amts.count w ≤ amts.count v)) ∧
    (calculateAggregates [[("amount", Value.num 5)], [("amount", Value.num 5)],
        [("amount", Value.num 10)]]).map Aggregates.mode_spend = some [5] ∧
    (calculateAggregates [[("amount", Value.num 5)], [("amount", Value.num 5)],
        [("amount", Value.num 10)], [("amount", Value.num 10)]]).map
      Aggregates.mode_spend = some [5, 10] := by
  refine ⟨?_, by decide, by decide⟩
  rw [calculateAggregates_eq hne hamt] at hagg
  have hagg3 : agg = aggOf rs amts := (Option.some_inj.mp hagg).symm
  subst hagg3
  intro v
  show v ∈ modeOf amts ↔ _
  unfold modeOf
  constructor
  · intro hv
    obtain ⟨⟨w, c⟩, hmem, hfst⟩ := List.mem_map.mp hv
    obtain ⟨htl, hc⟩ := List.mem_filter.mp hmem
    obtain ⟨hwm, hcw⟩ := mem_tally_iff.mp htl
    have hfst2 : w = v := hfst
    subst hfst2
    refine ⟨hwm, ?_⟩
    intro u hu
    have hmc : maxCount amts = ((tally amts).map fun p => p.2).foldr max 0 := rfl
    have h1 : amts.count u ≤ maxCount amts := by
      rw [hmc]
      exact le_foldr_max _ _
        (List.mem_map.mpr ⟨(u, amts.count u), mem_tally_iff.mpr ⟨hu, rfl⟩, rfl⟩)
    have hcm : c = maxCount amts := beq_iff_eq.mp hc
    omega
  · rintro ⟨hv, hmax⟩
    apply List.mem_map.mpr
    refine ⟨(v, amts.count v),
      List.mem_filter.mpr ⟨mem_tally_iff.mpr ⟨hv, rfl⟩, ?_⟩, rfl⟩
    have hmc : maxCount amts = ((tally amts).map fun p => p.2).foldr max 0 := rfl
    have h1 : amts.count v ≤ maxCount amts := by
      rw [hmc]
      exact le_foldr_max _ _
        (List.mem_map.mpr ⟨(v, amts.count v), mem_tally_iff.mpr ⟨hv, rfl⟩, rfl⟩)
    have h2 : maxCount amts ≤ amts.count v := by
      by_cases h0 : maxCount amts = 0
      · omega
      · have h0f : ((tally amts).map fun p => p.2).foldr max 0 ≠ 0 := by
          rw [← hmc]
          exact h0
        obtain ⟨⟨w, c⟩, hwt, hsnd⟩ := List.mem_map.mp (foldr_max_mem _ h0f)
        obtain ⟨hwm, hcw⟩ := mem_tally_iff.mp hwt
        have hsnd2 : c = maxCount amts := by
          rw [hmc]
          exact hsnd
        have := hmax w hwm
        omega
    have heq : amts.count v = maxCount amts := le_antisymm h1 h2
    exact beq_iff_eq.mpr heq

/-- Witness for C8: the membership characterization applied at value `5`
for the amounts `[5, 5, 10]`. -/
theorem C8_mode_all_ties_witness :
    5 ∈ (aggOf [[("amount", Value.num 5)], [("amount", Value.num 5)],
        [("amount", Value.num 10)]] [5, 5, 10]).mode_spend ↔
      ((5 : Rat) ∈ ([5, 5, 10] : List Rat) ∧
        ∀ w ∈ ([5, 5, 10] : List Rat),
          ([5, 5, 10] : List Rat).count w ≤ ([5, 5, 10] : List Rat).count 5) :=
  (C8_mode_all_ties
    [[("amount", Value.num 5)], [("amount", Value.num 5)], [("amount", Value.num 10)]]
    [5, 5, 10]
    (aggOf [[("amount", Value.num 5)], [("amount", Value.num 5)],
      [("amount", Value.num 10)]] [5, 5, 10])
    (by decide) (by decide) (by decide)).1 5

/-! ## Helper lemmas: time-series accumulation -/

/-- Lookup in the time-series accumulator. -/
def alookV : List (String × Rat) → String → Option Rat
  | [], _ => Option.none
  | (w, c) :: t, v => if w = v then some c else alookV t v

theorem alookV_cons (w : String) (d : Rat) (t : List (String × Rat)) (u : String) :
    alookV ((w, d) :: t) u = if w = u then some d else alookV t u := rfl

theorem alookV_tsAdd (acc : List (String × Rat)) (key : String) (q : Rat) (u : String) :
    alookV (tsAdd acc key q) u =
      if u = key then some ((alookV acc u).getD 0 + q) else alookV acc u := by
  induction acc with
  | nil =>
    by_cases h : u = key
    · subst h; simp [tsAdd, alookV]
    · simp [tsAdd, alookV, h, Ne.symm h]
  | cons p t ih =>
    obtain ⟨w, c⟩ := p
    unfold tsAdd
    by_cases hw : w = key
    · rw [if_pos hw]
      by_cases hu : w = u
      · have huv : u = key := hu.symm.trans hw
        simp [alookV_cons, hu, huv]
      · have huv : ¬ u = key := fun hh => hu (hw.trans hh.symm)
        simp [alookV_cons, hu, huv]
    · rw [if_neg hw]
      by_cases hu : w = u
      · have huv : ¬ u = key := fun hh => hw (hu.trans hh)
        simp [alookV_cons, hu, huv]
      · simp [alookV_cons, hu, ih]

theorem mem_keys_tsAdd (acc : List (String × Rat)) (key : String) (q : Rat) (u : String) :
    u ∈ (tsAdd acc key q).map Prod.fst ↔ u ∈ acc.map Prod.fst ∨ u = key := by
  induction acc with
  | nil => simp [tsAdd, eq_comm]
  | cons p t ih =>
    obtain ⟨w, c⟩ := p
    unfold tsAdd
    by_cases hw : w = key
    · subst hw
      rw [if_pos rfl]
      simp only [List.map_cons, List.mem_cons]
      tauto
    · rw [if_neg hw]
      simp only [List.map_cons, List.mem_cons, ih]
      tauto

theorem nodup_keys_tsAdd {acc : List (String × Rat)} (key : String) (q : Rat)
    (h : (acc.map Prod.fst).Nodup) : ((tsAdd acc key q).map Prod.fst).Nodup := by
  induction acc with
  | nil => simp [tsAdd]
  | cons p t ih =>
    obtain ⟨w, c⟩ := p
    simp only [List.map_cons, List.nodup_cons] at h
    unfold tsAdd
    by_cases hw : w = key
    · subst hw
      rw [if_pos rfl]
      simp only [List.map_cons, List.nodup_cons]
      exact h
    · rw [if_neg hw]
      simp only [List.map_cons, List.nodup_cons]
      refine ⟨?_, ih h.2⟩
      rw [mem_keys_tsAdd]
      rintro (hmem | rfl)
      · exact h.1 hmem
      · exact hw rfl

theorem mem_keys_of_alookV_some :
    ∀ {acc : List (String × Rat)} {u : String} {c : Rat},
      alookV acc u = some c → u ∈ acc.map Prod.fst
  | [], u, c, h => by simp [alookV] at h
  | (w, d) :: t, u, c, h => by
    rw [alookV_cons] at h
    by_cases hw : w = u
    · simp [hw]
    · rw [if_neg hw] at h
      simp only [List.map_cons, List.mem_cons]
      exact Or.inr (mem_keys_of_alookV_some h)

theorem mem_assoc_iff_alookV :
    ∀ {acc : List (String × Rat)}, (acc.map Prod.fst).Nodup →
      ∀ {u : String} {c : Rat}, ((u, c) ∈ acc ↔ alookV acc u = some c)
  | [], _, u, c => by simp [alookV]
  | (w, d) :: t, hnd, u, c => by
    simp only [List.map_cons, List.nodup_cons] at hnd
    simp only [List.mem_cons, Prod.mk.injEq]
    by_cases hu : w = u
    · subst hu
      rw [mem_assoc_iff_alookV hnd.2, alookV_cons, if_pos rfl]
      constructor
      · rintro (⟨_, rfl⟩ | hmem)
        · rfl
        · exact absurd (mem_keys_of_alookV_some hmem) hnd.1
      · intro h
        exact Or.inl ⟨rfl, (Option.some_inj.mp h).symm⟩
    · rw [mem_assoc_iff_alookV hnd.2, alookV_cons, if_neg hu]
      constructor
      · rintro (⟨rfl, _⟩ | hmem)
        · exact absurd rfl hu
        · exact hmem
      · exact Or.inr

/-- A record's period label under label function `f` (`none` when the
record carries no `datetime` date). -/
def recLabel (f : PyDateTime → String) (r : RRecord) : Option String :=
  match dget r "transaction_date" with
  | some (.date d) => some (f d)
  | _ => Option.none

/-- A record's accumulated amount (`r.get("amount", 0.0)`; the non-num
branch is unreachable in error-free runs). -/
def recAmount (r : RRecord) : Rat :=
  match (dget r "amount").getD (.num 0) with
  | .num q => q
  | _ => 0

/-- The total amount of the records bucketed under label `lbl`. -/
def bucketSum (f : PyDateTime → String) (rs : List RRecord) (lbl : String) : Rat :=
  ((rs.filter fun r => recLabel f r == some lbl).map recAmount).sum

/-- The accumulation loop of `time_series_aggregation`, characterized:
over a valid period (one whose labels `tsLabel` renders via `f`), an
error-free run keeps the accumulator's keys duplicate-free and maps each
label to its accumulated bucket sum. -/
theorem ts_fold_ok (g : String) (f : PyDateTime → String)
    (hl : ∀ d, tsLabel d g = Except.ok (f d)) :
    ∀ (rs : List RRecord) (acc data : List (String × Rat)),
      (acc.map Prod.fst).Nodup →
      List.foldlM (tsStep g) acc rs = Except.ok data →
      (data.map Prod.fst).Nodup ∧
      ∀ lbl, alookV data lbl =
        (match alookV acc lbl with
         | some x => some (x + bucketSum f rs lbl)
         | Option.none =>
           if rs.any (fun r => recLabel f r == some lbl) then some (bucketSum f rs lbl)
           else Option.none)
  | [], acc, data, hnd, hfold => by
    have h : (Except.ok acc : Except PyErr (List (String × Rat))) = Except.ok data :=
      hfold
    injection h with h2
    subst h2
    refine ⟨hnd, ?_⟩
    intro lbl
    cases halook : alookV acc lbl with
    | none => simp
    | some x => simp [bucketSum]
  | r :: rs, acc, data, hnd, hfold => by
    rw [List.foldlM_cons] at hfold
    have skip :
        tsStep g acc r = Except.ok acc →
        recLabel f r = Option.none →
        (data.map Prod.fst).Nodup ∧
        ∀ lbl, alookV data lbl =
          (match alookV acc lbl with
           | some x => some (x + bucketSum f (r :: rs) lbl)
           | Option.none =>
             if (r :: rs).any (fun r => recLabel f r == some lbl) then
               some (bucketSum f (r :: rs) lbl)
             else Option.none) := by
      intro hstep hlab
      rw [hstep] at hfold
      obtain ⟨hnd', hch⟩ := ts_fold_ok g f hl rs acc data hnd hfold
      refine ⟨hnd', ?_⟩
      intro lbl
      rw [hch lbl]
      have hbs : bucketSum f (r :: rs) lbl = bucketSum f rs lbl := by
        unfold bucketSum
        rw [List.filter_cons]
        simp [hlab]
      have hany : ((r :: rs).any fun r => recLabel f r == some lbl)
          = (rs.any fun r => recLabel f r == some lbl) := by
        simp [hlab]
      rw [hbs, hany]
    cases hd : dget r "transaction_date" with
    | none =>
      exact skip (by unfold tsStep; rw [hd]; try rfl) (by unfold recLabel; rw [hd]; try rfl)
    | some v =>
      cases v with
      | num q =>
        exact skip (by unfold tsStep; rw [hd]; try rfl) (by unfold recLabel; rw [hd]; try rfl)
      | str s =>
        exact skip (by unfold tsStep; rw [hd]; try rfl) (by unfold recLabel; rw [hd]; try rfl)
      | none =>
        exact skip (by unfold tsStep; rw [hd]; try rfl) (by unfold recLabel; rw [hd]; try rfl)
      | date d =>
        have hlabr : recLabel f r = some (f d) := by unfold recLabel; rw [hd]
        have hstep0 : tsStep g acc r = (tsLabel d g >>= fun key =>
            match (dget r "amount").getD (.num 0) with
            | .num q => pure (tsAdd acc key q)
            | _ => throw PyErr.typeError) := by
          unfold tsStep
          rw [hd]
          try rfl
        have hstep : tsStep g acc r =
            (match (dget r "amount").getD (.num 0) with
             | .num q => Except.ok (tsAdd acc (f d) q)
             | _ => Except.error PyErr.typeError) := by
          rw [hstep0, hl d]
          try rfl
        rw [hstep] at hfold
        cases ham : (dget r "amount").getD (.num 0) with
        | num q =>
          rw [ham] at hfold
          have hfold' : List.foldlM (tsStep g) (tsAdd acc (f d) q) rs
              = Except.ok data := hfold
          obtain ⟨hnd', hch⟩ :=
            ts_fold_ok g f hl rs (tsAdd acc (f d) q) data
              (nodup_keys_tsAdd (f d) q hnd) hfold'
          refine ⟨hnd', ?_⟩
          intro lbl
          rw [hch lbl, alookV_tsAdd]
          have hra : recAmount r = q := by unfold recAmount; rw [ham]
          by_cases heq : lbl = f d
          · have hbs : bucketSum f (r :: rs) lbl = q + bucketSum f rs lbl := by
              unfold bucketSum
              rw [List.filter_cons]
              have : (recLabel f r == some lbl) = true := by
                rw [hlabr, heq]
                exact beq_self_eq_true _
              rw [this]
              simp [hra]
            have hany : ((r :: rs).any fun r => recLabel f r == some lbl) = true := by
              have : (recLabel f r == some lbl) = true := by
                rw [hlabr, heq]
                exact beq_self_eq_true _
              simp [this]
            rw [if_pos heq, hbs, hany]
            cases halook : alookV acc lbl with
            | none => simp
            | some x => simp [add_assoc]
          · have hne2 : (recLabel f r == some lbl) = false := by
              rw [hlabr]
              simp only [beq_eq_false_iff_ne, ne_eq, Option.some.injEq]
              exact fun hh => heq hh.symm
            have hbs : bucketSum f (r :: rs) lbl = bucketSum f rs lbl := by
              unfold bucketSum
              rw [List.filter_cons, hne2]
              simp
            have hany : ((r :: rs).any fun r => recLabel f r == some lbl)
                = (rs.any fun r => recLabel f r == some lbl) := by
              simp [hne2]
            rw [if_neg heq, hbs, hany]
        | str s =>
          rw [ham] at hfold
          have hbad : (Except.error PyErr.typeError : Except PyErr (List (String × Rat)))
              = Except.ok data := hfold
          cases hbad
        | date d2 =>
          rw [ham] at hfold
          have hbad : (Except.error PyErr.typeError : Except PyErr (List (String × Rat)))
              = Except.ok data := hfold
          cases hbad
        | none =>
          rw [ham] at hfold
          have hbad : (Except.error PyErr.typeError : Except PyErr (List (String × Rat)))
              = Except.ok data := hfold
          cases hbad

instance : IsTotal (String × Rat) (fun a b => a.1 ≤ b.1) :=
  ⟨fun _ _ => le_total _ _⟩

instance : IsTrans (String × Rat) (fun a b => a.1 ≤ b.1) :=
  ⟨fun _ _ _ h1 h2 => le_trans h1 h2⟩

/-! ## Claim C9 -/

/-- C9: over two records dated 2024-01-05 and 2024-01-20 each with amount
100, month-granularity aggregation returns exactly `{"2024-01": 200}`;
and in general, for any granularity whose labels `tsLabel` renders via a
label function `f` (as `"month"` and `"year"` do), a successful run
returns buckets sorted strictly ascending by period label, containing
exactly the labels of the `datetime`-dated records, each mapped to the
sum of the amounts of the records in its bucket. -/
theorem C9_time_series_buckets :
    timeSeriesAggregation
        [[("transaction_date", Value.date ⟨2024, 1, 5⟩), ("amount", Value.num 100)],
         [("transaction_date", Value.date ⟨2024, 1, 20⟩), ("amount", Value.num 100)]]
        "month" = Except.ok [("2024-01", 200)] ∧
    ∀ (g : String) (f : PyDateTime → String) (rs : List RRecord)
      (out : List (String × Rat)),
      (∀ d, tsLabel d g = Except.ok (f d)) →
      timeSeriesAggregation rs g = Except.ok out →
      out.Pairwise (fun a b => a.1 < b.1) ∧
      (∀ lbl q, (lbl, q) ∈ out ↔
        (rs.any (fun r => recLabel f r == some lbl) = true ∧
          q = bucketSum f rs lbl)) := by
  constructor
  · rfl
  · intro g f rs out hl hok
    unfold timeSeriesAggregation at hok
    cases hfold : List.foldlM (tsStep g) ([] : List (String × Rat)) rs with
    | error e =>
      rw [hfold] at hok
      have hbad : (Except.error e : Except PyErr (List (String × Rat)))
          = Except.ok out := hok
      cases hbad
    | ok data =>
      rw [hfold] at hok
      have hout : out = data.insertionSort (fun a b => a.1 ≤ b.1) := by
        have h2 : (Except.ok (data.insertionSort fun a b => a.1 ≤ b.1)
            : Except PyErr (List (String × Rat))) = Except.ok out := hok
        injection h2 with h3
        exact h3.symm
      obtain ⟨hnd, hch⟩ := ts_fold_ok g f hl rs [] data (by simp) hfold
      have hch2 : ∀ lbl, alookV data lbl =
          (if rs.any (fun r => recLabel f r == some lbl) then
            some (bucketSum f rs lbl)
          else Option.none) := fun lbl => hch lbl
      constructor
      · subst hout
        have hle : (data.insertionSort fun a b => a.1 ≤ b.1).Pairwise
            (fun a b : String × Rat => a.1 ≤ b.1) :=
          List.sorted_insertionSort _ data
        have hperm := List.perm_insertionSort (fun a b : String × Rat => a.1 ≤ b.1) data
        have hndout : ((data.insertionSort fun a b => a.1 ≤ b.1).map Prod.fst).Nodup :=
          ((hperm.map Prod.fst).nodup_iff).mpr hnd
        have hne : (data.insertionSort fun a b => a.1 ≤ b.1).Pairwise
            (fun a b : String × Rat => a.1 ≠ b.1) :=
          (List.pairwise_map (f := Prod.fst)).mp hndout
        exact (hle.and hne).imp fun hab => lt_of_le_of_ne hab.1 hab.2
      · intro lbl q
        have hmem : ((lbl, q) ∈ out) ↔ ((lbl, q) ∈ data) := by
          rw [hout]
          exact (List.perm_insertionSort _ data).mem_iff
        rw [hmem, mem_assoc_iff_alookV hnd, hch2 lbl]
        by_cases hany : rs.any (fun r => recLabel f r == some lbl) = true
        · rw [if_pos hany]
          constructor
          · intro h
            exact ⟨hany, (Option.some_inj.mp h).symm⟩
          · rintro ⟨_, rfl⟩
            rfl
        · rw [if_neg hany]
          constructor
          · intro h
            cases h
          · rintro ⟨ha, _⟩
            exact absurd ha hany

/-- Witness for C9: the general clause applied at the month granularity
and the two-record example (sortedness of the resulting bucket list). -/
theorem C9_time_series_buckets_witness :
    ([("2024-01", (200 : Rat))] : List (String × Rat)).Pairwise
      (fun a b => a.1 < b.1) :=
  (C9_time_series_buckets.2 "month" (fun d => pad4 d.year ++ "-" ++ pad2 d.month)
    [[("transaction_date", Value.date ⟨2024, 1, 5⟩), ("amount", Value.num 100)],
     [("transaction_date", Value.date ⟨2024, 1, 20⟩), ("amount", Value.num 100)]]
    [("2024-01", 200)] (fun _ => rfl) (by rfl)).1

end RA
